import Mathlib

/-!
Verification development for the Excel ↔ GeoJSON converter
(`src/streamlit_app.py`).

The source is a small pandas/geopandas Streamlit application with two
converters (`convert_to_geojson`, `convert_geojson_to_excel`), two
column-level helpers (`replace_commas_with_dots_excel`,
`replace_commas_with_dots`), and a publish step that is described in the
repository's design document but has no code under `src/`.

Modelling conventions (shallow embedding):
* Python strings are `List Char` (named `PyStr`); all of `str.split`,
  `str.strip`, `str.join`, `str.replace` are re-implemented structurally.
* pandas cell values are the inductive `Val` (string, number, NaN, None,
  list-of-strings, geometry).  Machine floats are modelled as `ℚ`; the
  decimal printer `numToStr` and the numeric parser `parseNum` model
  Python's `str()` on numbers and `pd.to_numeric`'s string parsing on the
  decimal fragment both sides actually exchange.
* A pandas DataFrame read from Excel is `Table` (named, dtyped columns of
  cells); the record-built GeoDataFrame of the reverse conversion is
  `Frame` (column names plus row-major cells).
* Exceptions are explicit: fallible steps return `Except Err _`.
-/

/-- A Python string value: its sequence of characters. -/
abbrev PyStr := List Char

/-- The whitespace characters removed by Python's `str.strip()`. -/
def pySpace (c : Char) : Bool :=
  c = ' ' || c = '\t' || c = '\n' || c = '\x0d' || c = '\x0b' || c = '\x0c'

/-- Python `str.strip()`: drop leading and trailing whitespace. -/
def pyStrip (s : PyStr) : PyStr :=
  ((s.dropWhile pySpace).reverse.dropWhile pySpace).reverse

/-- Worker for `pySplit`: accumulates the current segment (reversed). -/
def pySplitAux (sep : Char) : PyStr → PyStr → List PyStr
  | [], acc => [acc.reverse]
  | c :: rest, acc =>
      if c = sep then acc.reverse :: pySplitAux sep rest []
      else pySplitAux sep rest (c :: acc)

/-- Python `str.split(sep)` for a one-character separator:
`"".split(",") = [""]`, `"a,b".split(",") = ["a","b"]`. -/
def pySplit (sep : Char) (s : PyStr) : List PyStr :=
  pySplitAux sep s []

/-- Python `sep.join(parts)`. -/
def pyJoinSep (sep : PyStr) : List PyStr → PyStr
  | [] => []
  | [a] => a
  | a :: b :: rest => a ++ sep ++ pyJoinSep sep (b :: rest)

/-- Python `str.replace(a, b)` for one-character patterns (also the
behaviour of `Series.replace({a: b}, regex=True)` on these literals). -/
def pyReplace (a b : Char) (s : PyStr) : PyStr :=
  s.map fun c => if c = a then b else c

/-! ### Decimal digits, the numeric parser and the numeric printer

`parseNum` models the string-parsing part of `pd.to_numeric` (equivalently
Python's `float()`/`int()`) on the plain decimal fragment — optional sign,
digits, optional decimal point — which is the only fragment the two
converters exchange.  `numToStr` models Python's `str()` on the numeric
values the pipeline holds (`astype(str)` on a numeric column): the exact
decimal rendering of a value whose denominator divides a power of ten.
`str()` of an integral float prints a trailing `.0` which `numToStr`
omits; both spellings parse back to the same value, so the value-level
model is unaffected. -/

/-- Is `c` one of the ASCII digits? -/
def isDigitChar (c : Char) : Bool :=
  ['0', '1', '2', '3', '4', '5', '6', '7', '8', '9'].contains c

/-- The digit character for `d < 10`. -/
def digitChar : ℕ → Char
  | 0 => '0' | 1 => '1' | 2 => '2' | 3 => '3' | 4 => '4'
  | 5 => '5' | 6 => '6' | 7 => '7' | 8 => '8' | 9 => '9'
  | _ => '*'

/-- The numeric value of a digit character. -/
def charVal (c : Char) : ℕ := c.toNat - '0'.toNat

/-- Big-endian value of a digit string. -/
def natOfDigits (s : PyStr) : ℕ := s.foldl (fun acc c => 10 * acc + charVal c) 0

/-- Little-endian base-10 digits of `n` (empty for `0`), with fuel. -/
def digitsRevAux : ℕ → ℕ → List ℕ
  | 0, _ => []
  | fuel + 1, n => if n = 0 then [] else n % 10 :: digitsRevAux fuel (n / 10)

/-- Little-endian base-10 digits of `n` (empty for `0`). -/
def digitsRev (n : ℕ) : List ℕ := digitsRevAux n n

/-- Little-endian valuation, inverse of `digitsRev`. -/
def undigits : List ℕ → ℕ
  | [] => 0
  | d :: rest => d + 10 * undigits rest

/-- Python `str()` of a natural number. -/
def natToDigitsStr (n : ℕ) : PyStr :=
  if n = 0 then ['0'] else ((digitsRev n).map digitChar).reverse

/-- Left-pad a digit string with zeros to width `k`. -/
def padLeftZeros (k : ℕ) (s : PyStr) : PyStr :=
  List.replicate (k - s.length) '0' ++ s

/-- Parse a nonempty all-digit string. -/
def parseDigits (s : PyStr) : Option ℕ :=
  if s ≠ [] ∧ s.all isDigitChar then some (natOfDigits s) else none

/-- Value of the pieces around the (at most one) decimal point. -/
def parseUnsignedCore : List PyStr → Option ℚ
  | [ip] =>
      match parseDigits ip with
      | some n => some ((n : ℕ) : ℚ)
      | none => none
  | [ip, fp] =>
      if ip ++ fp ≠ [] ∧ (ip ++ fp).all isDigitChar then
        some (Rat.divInt (natOfDigits (ip ++ fp)) (10 ^ fp.length))
      else none
  | _ => none

/-- Parse an unsigned decimal literal: `"12"`, `"12.5"`, `".5"`, `"12."`. -/
def parseUnsigned (s : PyStr) : Option ℚ :=
  parseUnsignedCore (pySplit '.' s)

/-- Sign handling on the stripped string. -/
def parseSigned : PyStr → Option ℚ
  | [] => none
  | c :: r =>
      if c = '-' then (parseUnsigned r).map Neg.neg
      else if c = '+' then parseUnsigned r
      else parseUnsigned (c :: r)

/-- Parse a signed decimal literal after stripping whitespace; `none`
models a `ValueError` (which `errors='coerce'` turns into NaN). -/
def parseNum (s : PyStr) : Option ℚ :=
  parseSigned (pyStrip s)

/-- Multiplicity of `p` in `n` (with fuel). -/
def multAux (p : ℕ) : ℕ → ℕ → ℕ
  | 0, _ => 0
  | fuel + 1, n => if p ∣ n ∧ 1 < n then multAux p fuel (n / p) + 1 else 0

/-- The decimal exponent of a denominator `d = 2^a * 5^b`: `max a b`. -/
def decPow (d : ℕ) : ℕ := max (multAux 2 d d) (multAux 5 d d)

/-- `q` has a finite decimal expansion. -/
def IsDecimal (q : ℚ) : Prop := (q.den : ℕ) ∣ 10 ^ decPow q.den

instance (q : ℚ) : Decidable (IsDecimal q) := by unfold IsDecimal; infer_instance

/-- The integer numerator scaled onto the decimal denominator `10 ^ decPow`. -/
def decScaled (q : ℚ) : ℕ := q.num.natAbs * (10 ^ decPow q.den / q.den)

/-- Python `str()` of a number with a finite decimal expansion
(arbitrary digits-only fallback on other values, which no float holds). -/
def numToStr (q : ℚ) : PyStr :=
  if decPow q.den = 0 then
    (if q.num < 0 then ['-'] else []) ++ natToDigitsStr (decScaled q)
  else
    ((if q.num < 0 then ['-'] else []) ++
        natToDigitsStr (decScaled q / 10 ^ decPow q.den)) ++
      '.' :: padLeftZeros (decPow q.den) (natToDigitsStr (decScaled q % 10 ^ decPow q.den))

/-! ### Geometry values and the WKT fragment

`Geom` models the shapely geometries the app handles (point, line,
polygon, per the data model).  `parseWKT` models
`gpd.GeoSeries.from_wkt` on the `POINT`/`LINESTRING` fragment of WKT —
the application's data is point data, and no claim exercises polygon
text; an unrecognised text raises, i.e. parses to `none`. -/

/-- A geometry value: point, line or polygon. -/
inductive Geom where
  | point (x y : ℚ)
  | line (pts : List (ℚ × ℚ))
  | polygon (rings : List (List (ℚ × ℚ)))
  deriving DecidableEq

/-- Option-valued traversal of a list (first failure wins). -/
def optionMapM {α β : Type} (f : α → Option β) : List α → Option (List β)
  | [] => some []
  | a :: l =>
      match f a with
      | none => none
      | some b =>
          match optionMapM f l with
          | none => none
          | some bs => some (b :: bs)

/-- `"x y"` with any spacing, as a coordinate pair. -/
def parseCoordPair (s : PyStr) : Option (ℚ × ℚ) :=
  match (pySplit ' ' s).filter (fun t => !t.isEmpty) with
  | [xs, ys] =>
      match parseNum xs, parseNum ys with
      | some x, some y => some (x, y)
      | _, _ => none
  | _ => none

/-- The text between one balanced pair of parentheses. -/
def stripParens (s : PyStr) : Option PyStr :=
  match pyStrip s with
  | '(' :: r => if r.getLast? = some ')' then some r.dropLast else none
  | _ => none

/-- `gpd.GeoSeries.from_wkt` on one cell (point/linestring fragment). -/
def parseWKT (s : PyStr) : Option Geom :=
  if "POINT".data.isPrefixOf (pyStrip s) then
    match stripParens ((pyStrip s).drop 5) with
    | some inner => (parseCoordPair inner).map fun p => Geom.point p.1 p.2
    | none => none
  else if "LINESTRING".data.isPrefixOf (pyStrip s) then
    match stripParens ((pyStrip s).drop 10) with
    | some inner => (optionMapM parseCoordPair (pySplit ',' inner)).map Geom.line
    | none => none
  else none

/-! ### Cell values and the per-cell transforms of both converters -/

/-- pandas column dtypes that matter to `replace_commas_with_dots_excel`. -/
inductive Dtype where
  | float64
  | int64
  | obj
  deriving DecidableEq

/-- One pandas cell: string, float, NaN, Python `None`, list of strings
(a split multi-value cell), or a geometry object. -/
inductive Val where
  | str (s : PyStr)
  | num (q : ℚ)
  | nan
  | pynone
  | vlist (l : List PyStr)
  | geom (g : Geom)
  deriving DecidableEq

/-- A JSON property value of the GeoJSON documents the app exchanges:
null, string, number, or array of strings (the split multi-value column). -/
inductive JVal where
  | jnull
  | jstr (s : PyStr)
  | jnum (q : ℚ)
  | jarr (l : List PyStr)
  deriving DecidableEq

/-- The error conditions of both converters.  `missingGeometryColumn` is
the explicit warning-and-return-None path (lines 48–50); the others are
the exceptions the interpreter would raise: `KeyError` on a dict
subscript, `TypeError` from `shape(None)`, `AttributeError` from `.x`
or `.y` on a non-point geometry, `ValueError` from building a
GeoDataFrame without a geometry column, and the parse error raised by
`GeoSeries.from_wkt` on invalid WKT text. -/
inductive Err where
  | missingGeometryColumn
  | wktParseError
  | keyError (k : String)
  | typeError
  | attributeError
  | valueError
  deriving DecidableEq

/-- Python `repr`-style rendering of a list of strings (only reachable
through `str()` of a list value, which no claim exercises). -/
def pyStrOfList (l : List PyStr) : PyStr :=
  '[' :: (pyJoinSep ", ".data (l.map fun s => Char.ofNat 39 :: (s ++ [Char.ofNat 39]))) ++ [']']

/-- `str()` of a shapely geometry: its WKT. -/
def wktOfGeom : Geom → PyStr
  | .point x y => "POINT (".data ++ numToStr x ++ ' ' :: numToStr y ++ [')']
  | .line pts =>
      "LINESTRING (".data ++
        pyJoinSep ", ".data (pts.map fun p => numToStr p.1 ++ ' ' :: numToStr p.2) ++ [')']
  | .polygon rings =>
      "POLYGON (".data ++
        pyJoinSep ", ".data (rings.map fun ring =>
          '(' :: (pyJoinSep ", ".data (ring.map fun p => numToStr p.1 ++ ' ' :: numToStr p.2)) ++ [')']) ++ [')']

/-- Python `str()` of a cell value (`str(float('nan')) = "nan"`,
`str(None) = "None"`). -/
def pyStrVal : Val → PyStr
  | .str s => s
  | .num q => numToStr q
  | .nan => "nan".data
  | .pynone => "None".data
  | .vlist l => pyStrOfList l
  | .geom g => wktOfGeom g

/-- `pd.to_numeric(x, errors='coerce')` on one cell.  Both call sites
only feed it scalars: Excel cells are scalars, and the reverse converter
stringifies its numeric columns (`astype(str)`) before re-parsing, so
the list/geometry cases (where real pandas would raise `TypeError`) are
unreachable and mapped to NaN here. -/
def toNumericCell : Val → Val
  | .num q => .num q
  | .str s =>
      match parseNum s with
      | some q => .num q
      | none => .nan
  | .nan => .nan
  | .pynone => .nan
  | .vlist _ => .nan
  | .geom _ => .nan

/-- `Series.fillna("")` on one cell: missing values become `""`. -/
def fillnaCell : Val → Val
  | .nan => .str []
  | .pynone => .str []
  | v => v

/-- The `Kanton` ingestion lambda (lines 37–39):
`[k.strip() for k in x.split(",")] if isinstance(x, str) and x.strip() else []`. -/
def kantonSplitCell : Val → Val
  | .str s => if pyStrip s ≠ [] then .vlist ((pySplit ',' s).map pyStrip) else .vlist []
  | _ => .vlist []

/-- The cell lambda of `replace_commas_with_dots_excel` (line 15):
`str(x).replace(',', '.') if isinstance(x, str) else x`. -/
def excelCommaCell : Val → Val
  | .str s => .str (pyReplace ',' '.' s)
  | v => v

/-- `join_kanton` (lines 70–75): join a list with `", "`, map `None` to
`""`, and stringify anything else (so a NaN from a missing property
becomes the string `"nan"`). -/
def join_kanton : Val → Val
  | .vlist l => .str (pyJoinSep ", ".data l)
  | .pynone => .str []
  | v => .str (pyStrVal v)

/-- One cell of `astype(str)` followed by
`Series.replace({',': '.'}, regex=True)` (lines 18–22). -/
def replCell (v : Val) : Val :=
  .str (pyReplace ',' '.' (pyStrVal v))

/-- Serialization of one property value by `GeoDataFrame.to_json`
(line 52).  Geometry objects never sit in a property column. -/
def valToJ : Val → JVal
  | .str s => .jstr s
  | .num q => .jnum q
  | .nan => .jnull
  | .pynone => .jnull
  | .vlist l => .jarr l
  | .geom _ => .jnull

/-- The Python value of a parsed JSON property (`json.load`, line 60). -/
def jToVal : JVal → Val
  | .jnull => .pynone
  | .jstr s => .str s
  | .jnum q => .num q
  | .jarr l => .vlist l

/-- Is the cell a Python string instance (`isinstance(x, str)`)? -/
def Val.isStr : Val → Bool
  | .str _ => true
  | _ => false

/-! ### The tabular document and `convert_to_geojson` (lines 28–53)

A `Table` is the DataFrame produced by `pd.read_excel`: named columns
with a pandas dtype and one cell per row.  The source's
`for column in list: if column in df: df[column] = ...` loops assign
independent columns, so they are embedded as one map over the columns
guarded by membership of the column's name. -/

/-- One pandas column: name, dtype, cells (one per row). -/
structure Col where
  name : String
  dtype : Dtype
  cells : List Val
  deriving DecidableEq

/-- A pandas DataFrame: its columns. -/
structure Table where
  cols : List Col
  deriving DecidableEq

/-- The column names, in order. -/
def Table.names (t : Table) : List String := t.cols.map Col.name

/-- The number of rows (length of the first column). -/
def Table.nrows (t : Table) : ℕ :=
  match t.cols with
  | [] => 0
  | c :: _ => c.cells.length

/-- The cells of the named column (first match; `[]` if absent). -/
def colCells (t : Table) (name : String) : List Val :=
  match t.cols.find? (fun c => c.name == name) with
  | some c => c.cells
  | none => []

/-- The designated numeric columns (lines 30 and 80). -/
def numeric_columns : List String :=
  ["GesamthoeheM", "KEV-Liste", "Rotordurchmesser", "TotalTurbinen", "MW", "GWhA"]

/-- One column of lines 32–34: numeric coercion if designated. -/
def numCol (c : Col) : Col :=
  if c.name ∈ numeric_columns then
    { name := c.name, dtype := .float64, cells := c.cells.map toNumericCell }
  else c

/-- Lines 32–34: numeric coercion of the designated columns. -/
def toNumericStep (t : Table) : Table := ⟨t.cols.map numCol⟩

/-- One column of lines 36–39: `fillna("")` then split if `Kanton`. -/
def kantonCol (c : Col) : Col :=
  if c.name = "Kanton" then
    { name := c.name, dtype := .obj,
      cells := c.cells.map fun v => kantonSplitCell (fillnaCell v) }
  else c

/-- Lines 36–39: `fillna("")` then split on the `Kanton` column. -/
def kantonStep (t : Table) : Table := ⟨t.cols.map kantonCol⟩

/-- One column of lines 12–16: rewrite string cells if float64/int64. -/
def excelCol (c : Col) : Col :=
  if c.dtype = .float64 ∨ c.dtype = .int64 then
    { name := c.name, dtype := c.dtype, cells := c.cells.map excelCommaCell }
  else c

/-- Lines 12–16: rewrite string cells of float64/int64 columns. -/
def replace_commas_with_dots_excel (t : Table) : Table := ⟨t.cols.map excelCol⟩

/-- One column of line 42: `fillna("")`. -/
def fillnaCol (c : Col) : Col :=
  { name := c.name, dtype := c.dtype, cells := c.cells.map fillnaCell }

/-- Line 42: `fillna("")` over the whole frame. -/
def fillnaStep (t : Table) : Table := ⟨t.cols.map fillnaCol⟩

/-- Lines 32–42 composed, in source order. -/
def normalizeSteps (t : Table) : Table :=
  fillnaStep (replace_commas_with_dots_excel (kantonStep (toNumericStep t)))

/-- `GeoSeries.from_wkt` on one cell: non-strings and unparseable text
raise. -/
def fromWktCell (v : Val) : Except Err Geom :=
  match v with
  | .str s =>
      match parseWKT s with
      | some g => .ok g
      | none => .error .wktParseError
  | _ => .error .wktParseError

/-- `Except`-valued traversal of a list (first failure wins), the loop
shape of both converters. -/
def exceptMapM {α β : Type} (f : α → Except Err β) : List α → Except Err (List β)
  | [] => .ok []
  | a :: l =>
      match f a with
      | .error e => .error e
      | .ok b =>
          match exceptMapM f l with
          | .error e => .error e
          | .ok bs => .ok (b :: bs)

/-- One Feature of the serialized collection: the non-geometry columns
as properties, plus a geometry. -/
structure Feature where
  properties : List (String × JVal)
  geometry : Option Geom
  deriving DecidableEq

/-- The top-level GeoJSON document: `none` models a top-level object
with no `features` key. -/
structure GeoDoc where
  features : Option (List Feature)
  deriving DecidableEq

/-- `GeoDataFrame.to_json` (line 52): one Feature per row; properties
are all non-geometry columns. -/
def featuresOf (t : Table) (geoms : List Geom) : List Feature :=
  (List.range t.nrows).map fun i =>
    { properties := (t.cols.filter fun c => c.name != "geometry").map fun c =>
        (c.name, valToJ (c.cells.getD i .nan)),
      geometry := geoms[i]? }

/-- `convert_to_geojson` (lines 28–53): normalize columns, require the
`geometry` column, parse its WKT, and serialize the feature collection.
The `st.warning` plus `return None` path is the
`missingGeometryColumn` error. -/
def convert_to_geojson (t : Table) : Except Err GeoDoc :=
  if "geometry" ∈ (normalizeSteps t).names then
    match exceptMapM fromWktCell (colCells (normalizeSteps t) "geometry") with
    | .error e => .error e
    | .ok geoms => .ok { features := some (featuresOf (normalizeSteps t) geoms) }
  else .error .missingGeometryColumn

/-! ### The record-built GeoDataFrame and `convert_geojson_to_excel`
(lines 59–93) -/

/-- One record of the loop at lines 61–66: a property dict. -/
abbrev Record := List (String × Val)

/-- Python dict assignment `d[k] = v`: overwrite the key in place, or
append it (keys of a parsed JSON object are unique). -/
def setKey (r : Record) (k : String) (v : Val) : Record :=
  if k ∈ r.map Prod.fst then
    r.map fun p => if p.1 = k then (k, v) else p
  else r ++ [(k, v)]

/-- `shape(geometry)` (line 64): `shape(None)` raises `TypeError`. -/
def shapeE : Option Geom → Except Err Geom
  | none => .error .typeError
  | some g => .ok g

/-- Lines 62–66, one iteration: `props = feature["properties"]`,
`geometry = shape(feature["geometry"])`, `props["geometry"] = geometry`. -/
def featRecord (f : Feature) : Except Err Record :=
  match shapeE f.geometry with
  | .error e => .error e
  | .ok g => .ok (setKey (f.properties.map fun p => (p.1, jToVal p.2)) "geometry" (.geom g))

/-- Extend a column list with one key if new. -/
def insertKey (acc : List String) (k : String) : List String :=
  if k ∈ acc then acc else acc ++ [k]

/-- The column set of `pd.DataFrame(records)`: all keys in order of
first appearance. -/
def dfColumns (recs : List Record) : List String :=
  recs.foldl (fun acc r => (r.map Prod.fst).foldl insertKey acc) []

/-- Cell of a record under a column: a missing key is NaN in the
constructed frame. -/
def dfGet (r : Record) (k : String) : Val :=
  match r with
  | [] => .nan
  | p :: rest => if p.1 = k then p.2 else dfGet rest k

/-- The frame after construction: column names plus row-major cells. -/
structure Frame where
  cols : List String
  rows : List (List Val)
  deriving DecidableEq

/-- Row-major materialization of the records. -/
def mkFrameRows (cols : List String) (recs : List Record) : List (List Val) :=
  recs.map fun r => cols.map fun c => dfGet r c

/-- `gpd.GeoDataFrame(records, geometry="geometry")` (line 68): raises
unless a `geometry` column exists. -/
def mkGdf (recs : List Record) : Except Err Frame :=
  if "geometry" ∈ dfColumns recs then
    .ok ⟨dfColumns recs, mkFrameRows (dfColumns recs) recs⟩
  else .error .valueError

/-- Index of the first column with the given name. -/
def colIdx (cols : List String) (c : String) : Option ℕ :=
  match cols with
  | [] => none
  | x :: xs => if x = c then some 0 else (colIdx xs c).map (· + 1)

/-- The value a row holds under a column name. -/
def rowCell (fr : Frame) (r : List Val) (c : String) : Val :=
  match colIdx fr.cols c with
  | some j => r.getD j .nan
  | none => .nan

/-- Apply `f` to every cell of the columns satisfying `p`: the shape of
each `for column in list: if column in df: df[column] = df[column].map`
loop (the column names of a constructed frame are distinct, so the
per-column assignments are independent). -/
def frameMapCols (fr : Frame) (p : String → Bool) (f : Val → Val) : Frame :=
  ⟨fr.cols, fr.rows.map fun r => (fr.cols.zip r).map fun cv => if p cv.1 then f cv.2 else cv.2⟩

/-- Lines 77–78: join the `Kanton` column if present. -/
def joinKantonStep (fr : Frame) : Frame :=
  frameMapCols fr (fun c => decide (c = "Kanton")) join_kanton

/-- `replace_commas_with_dots` (lines 18–22): stringify and de-comma
each designated numeric column that is present. -/
def replace_commas_with_dots (fr : Frame) (ncols : List String) : Frame :=
  frameMapCols fr (fun c => decide (c ∈ ncols)) replCell

/-- Lines 86–88: re-coerce the designated numeric columns. -/
def toNumericFrameStep (fr : Frame) : Frame :=
  frameMapCols fr (fun c => decide (c ∈ numeric_columns)) toNumericCell

/-- The lambda of line 83, `lambda x: x.y if x else None`: `.y` exists
only on points (`AttributeError` otherwise); geometries in this model
are never empty, hence truthy, and `None` would only arise from a falsy
cell. -/
def latCell : Val → Except Err Val
  | .geom (.point _ y) => .ok (.num y)
  | .geom _ => .error .attributeError
  | .pynone => .ok .pynone
  | _ => .error .attributeError

/-- The lambda of line 84, `lambda x: x.x if x else None`. -/
def lonCell : Val → Except Err Val
  | .geom (.point x _) => .ok (.num x)
  | .geom _ => .error .attributeError
  | .pynone => .ok .pynone
  | _ => .error .attributeError

/-- Column assignment `df[c] = vals`: overwrite an existing column in
place or append a new one. -/
def addCol (fr : Frame) (c : String) (vals : List Val) : Frame :=
  match colIdx fr.cols c with
  | some j => ⟨fr.cols, (fr.rows.zip vals).map fun rv => rv.1.set j rv.2⟩
  | none => ⟨fr.cols ++ [c], (fr.rows.zip vals).map fun rv => rv.1 ++ [rv.2]⟩

/-- Lines 83–84: derive `lat`, then `lon`, from the geometry column. -/
def latlonStep (fr : Frame) : Except Err Frame :=
  match exceptMapM (fun r => latCell (rowCell fr r "geometry")) fr.rows with
  | .error e => .error e
  | .ok lats =>
      match exceptMapM (fun r => lonCell (rowCell (addCol fr "lat" lats) r "geometry"))
          (addCol fr "lat" lats).rows with
      | .error e => .error e
      | .ok lons => .ok (addCol (addCol fr "lat" lats) "lon" lons)

/-- `convert_geojson_to_excel` (lines 59–93).  A document without a
`features` list raises `KeyError` at line 62 before any row is built.
The returned frame is what `to_excel` (line 91) serializes. -/
def convert_geojson_to_excel (d : GeoDoc) : Except Err Frame :=
  match d.features with
  | none => .error (.keyError "features")
  | some fs =>
      match exceptMapM featRecord fs with
      | .error e => .error e
      | .ok records =>
          match mkGdf records with
          | .error e => .error e
          | .ok gdf =>
              match latlonStep (replace_commas_with_dots (joinKantonStep gdf) numeric_columns) with
              | .error e => .error e
              | .ok fr2 => .ok (toNumericFrameStep fr2)

/-- The cells of a named column of a frame. -/
def frameCol (fr : Frame) (c : String) : List Val :=
  match colIdx fr.cols c with
  | some j => fr.rows.map fun r => r.getD j .nan
  | none => []

deriving instance DecidableEq for Except

/-! ### The composed round trip and statement helpers -/

/-- Tabular → geo → tabular, the composition claimed to round-trip. -/
def roundtrip (t : Table) : Except Err Frame :=
  match convert_to_geojson t with
  | .error e => .error e
  | .ok d => convert_geojson_to_excel d

/-- The x coordinate of a WKT point cell (0 on any other cell — used
only to state conclusions whose hypotheses make the cell a point). -/
def wktX (v : Val) : ℚ :=
  match v with
  | .str s =>
      match parseWKT s with
      | some (.point x _) => x
      | _ => 0
  | _ => 0

/-- The y coordinate of a WKT point cell (0 on any other cell). -/
def wktY (v : Val) : ℚ :=
  match v with
  | .str s =>
      match parseWKT s with
      | some (.point _ y) => y
      | _ => 0
  | _ => 0

/-- The geometry a WKT cell parses to (a default point on failure,
used only under hypotheses that exclude it). -/
def wktGeomOf (v : Val) : Geom :=
  match v with
  | .str s => (parseWKT s).getD (.point 0 0)
  | _ => .point 0 0

/-- The geometry of a feature whose geometry is present (a default
point otherwise — used only under hypotheses that exclude it). -/
def featGeom (f : Feature) : Geom := f.geometry.getD (.point 0 0)

/-- The record the loop at lines 62–66 builds for a feature whose
geometry is present. -/
def featRecordOk (f : Feature) : Record :=
  setKey (f.properties.map fun p => (p.1, jToVal p.2)) "geometry" (.geom (featGeom f))

/-- The x coordinate of a point-geometry feature (0 otherwise). -/
def featX (f : Feature) : ℚ :=
  match f.geometry with
  | some (.point x _) => x
  | _ => 0

/-- The y coordinate of a point-geometry feature (0 otherwise). -/
def featY (f : Feature) : ℚ :=
  match f.geometry with
  | some (.point _ y) => y
  | _ => 0

/-! The cell of the reverse conversion's frame, per stage, as a function
of the feature and the column name (used to state what
`convert_geojson_to_excel` produces on a collection of point
features). -/

/-- Stage 0: the constructed GeoDataFrame cell (line 68). -/
def geoCell0 (f : Feature) (k : String) : Val := dfGet (featRecordOk f) k

/-- Stage 1: after the `Kanton` join (lines 77–78). -/
def geoCell1 (f : Feature) (k : String) : Val :=
  if k = "Kanton" then join_kanton (geoCell0 f k) else geoCell0 f k

/-- Stage 2: after `replace_commas_with_dots` (line 81). -/
def geoCell2 (f : Feature) (k : String) : Val :=
  if k ∈ numeric_columns then replCell (geoCell1 f k) else geoCell1 f k

/-- Stage 3: after the `lat` column assignment (line 83). -/
def geoCell3 (f : Feature) (k : String) : Val :=
  if k = "lat" then .num (featY f) else geoCell2 f k

/-- Stage 4: after the `lon` column assignment (line 84). -/
def geoCell4 (f : Feature) (k : String) : Val :=
  if k = "lon" then .num (featX f) else geoCell3 f k

/-- Final stage: after the numeric re-coercion (lines 86–88). -/
def geoCell (f : Feature) (k : String) : Val :=
  if k ∈ numeric_columns then toNumericCell (geoCell4 f k) else geoCell4 f k

/-! ### The publish client, modelled from the spec

There is no publish code under `src/`; the design document specifies a
`PublishClient` (its §4.4 and §6) against a `GET`/`PUT` content API.
The definitions below are modelled from the spec, not from source. -/

/-- The base64 alphabet. -/
def b64Alphabet : PyStr :=
  "ABCDEFGHIJKLMNOPQRSTUVWXYZabcdefghijklmnopqrstuvwxyz0123456789+/".data

/-- The base64 character of a 6-bit value. -/
def b64Char (n : ℕ) : Char := b64Alphabet.getD n '='

/-- Modelled from the spec: standard base64 of a byte sequence, the
encoding of the payload placed in the write request's `content`. -/
def base64Encode : List ℕ → PyStr
  | [] => []
  | [a] => [b64Char (a / 4), b64Char (a % 4 * 16), '=', '=']
  | [a, b] => [b64Char (a / 4), b64Char (a % 4 * 16 + b / 16), b64Char (b % 16 * 4), '=']
  | a :: b :: c :: rest =>
      [b64Char (a / 4), b64Char (a % 4 * 16 + b / 16),
        b64Char (b % 16 * 4 + c / 64), b64Char (c % 64)] ++ base64Encode rest

/-- Modelled from the spec: the JSON body of the `PUT` write request —
`{message, content (base64), branch, sha?}` (spec §6). -/
structure WriteRequest where
  message : String
  content : PyStr
  branch : String
  sha : Option String
  deriving DecidableEq

/-- Modelled from the spec: build the write request from the payload,
branch, and the revision token the preceding `GET` returned (`none`
when the path does not exist yet — "create" mode). -/
def buildWriteRequest (payload : List ℕ) (branch : String)
    (readSha : Option String) : WriteRequest :=
  { message := "update file", content := base64Encode payload,
    branch := branch, sha := readSha }

/-- Modelled from the spec: a publish outcome. -/
inductive PublishResult where
  | success
  | failure (code : ℕ) (message : String)
  deriving DecidableEq

/-- Modelled from the spec: classify the `PUT` status — 200/201 succeed,
anything else is a failure carrying the body text. -/
def classifyStatus (code : ℕ) (body : String) : PublishResult :=
  if code = 200 ∨ code = 201 then .success else .failure code body

/-! ### Concrete documents used by the claim evaluations -/

/-- One row whose `GesamthoeheM` reads `"12,5"` (comma decimal). -/
def tComma : Table :=
  ⟨[⟨"GesamthoeheM", .obj, [.str "12,5".data]⟩,
    ⟨"geometry", .obj, [.str "POINT (1 2)".data]⟩]⟩

/-- The same row with the dot spelling `"12.5"`. -/
def tDot : Table :=
  ⟨[⟨"GesamthoeheM", .obj, [.str "12.5".data]⟩,
    ⟨"geometry", .obj, [.str "POINT (1 2)".data]⟩]⟩

/-- A tabular document with no `geometry` column. -/
def tNoGeom : Table := ⟨[⟨"Name", .obj, [.str "a".data]⟩]⟩

/-- A well-formed one-row document exercising every special column. -/
def tRound : Table :=
  ⟨[⟨"Name", .obj, [.str "W1".data]⟩,
    ⟨"GesamthoeheM", .float64, [.num (Rat.divInt 241 2)]⟩,
    ⟨"Kanton", .obj, [.str "ZH, BE".data]⟩,
    ⟨"geometry", .obj, [.str "POINT (8.5 47.4)".data]⟩]⟩

/-- A document that already has a `lat` property column. -/
def tLatClash : Table :=
  ⟨[⟨"lat", .obj, [.str "keep me".data]⟩,
    ⟨"geometry", .obj, [.str "POINT (1 2)".data]⟩]⟩

/-- A feature collection with one line-geometry feature. -/
def dLine : GeoDoc :=
  ⟨some [⟨[("Name", .jstr "a".data)], some (.line [(0, 0), (1, 1)])⟩]⟩

/-- A feature collection of two point features. -/
def dPoints : GeoDoc :=
  ⟨some [⟨[("Name", .jstr "a".data)], some (.point (Rat.divInt 17 2) 47)⟩,
         ⟨[("Name", .jstr "b".data)], some (.point 7 46)⟩]⟩

/-- A row whose `MW` cell is unparseable text. -/
def tBadNum : Table :=
  ⟨[⟨"MW", .obj, [.str "abc".data]⟩,
    ⟨"geometry", .obj, [.str "POINT (1 2)".data]⟩]⟩

/-- A feature whose `MW` property is unparseable text. -/
def dBadNum : GeoDoc :=
  ⟨some [⟨[("MW", .jstr "abc".data)], some (.point 1 2)⟩]⟩


/-! ### Basic lemmas about the string operations -/

theorem pySplitAux_append_of_not_mem (sep : Char) (a : PyStr) (h : sep ∉ a) :
    ∀ (s : PyStr) (acc : PyStr),
      pySplitAux sep (a ++ s) acc = pySplitAux sep s (a.reverse ++ acc) := by
  induction a with
  | nil => intro s acc; simp [pySplitAux]
  | cons c rest ih =>
      intro s acc
      have hc : c ≠ sep := by
        intro hcs; exact h (by simp [hcs])
      have hr : sep ∉ rest := fun hm => h (List.mem_cons_of_mem _ hm)
      simp only [List.cons_append, pySplitAux, if_neg hc]
      show pySplitAux sep (rest ++ s) (c :: acc) = pySplitAux sep s ((c :: rest).reverse ++ acc)
      rw [ih hr]
      simp

theorem pySplit_of_not_mem (sep : Char) (a : PyStr) (h : sep ∉ a) :
    pySplit sep a = [a] := by
  have := pySplitAux_append_of_not_mem sep a h [] []
  simpa [pySplit, pySplitAux] using this

theorem pySplitAux_cons_sep (sep : Char) (s : PyStr) (acc : PyStr) :
    pySplitAux sep (sep :: s) acc = acc.reverse :: pySplit sep s := by
  simp [pySplitAux, pySplit]

/-- Splitting `a ++ sep :: s` where `a` is separator-free peels off `a`. -/
theorem pySplit_append_sep (sep : Char) (a : PyStr) (h : sep ∉ a) (s : PyStr) :
    pySplit sep (a ++ sep :: s) = a :: pySplit sep s := by
  show pySplitAux sep (a ++ sep :: s) [] = a :: pySplit sep s
  rw [pySplitAux_append_of_not_mem sep a h]
  simp [pySplitAux_cons_sep]

theorem pyStrip_nil : pyStrip [] = [] := by simp [pyStrip]

theorem dropWhile_eq_self_of_forall {p : Char → Bool} {s : PyStr}
    (h : ∀ c ∈ s, p c = false) : s.dropWhile p = s := by
  cases s with
  | nil => rfl
  | cons c rest => simp [List.dropWhile, h c (List.mem_cons_self c rest)]

theorem pyStrip_eq_self_of_no_space {s : PyStr}
    (h : ∀ c ∈ s, pySpace c = false) : pyStrip s = s := by
  unfold pyStrip
  rw [dropWhile_eq_self_of_forall h]
  rw [dropWhile_eq_self_of_forall (by intro c hc; exact h c (List.mem_reverse.mp hc))]
  simp

theorem pyStrip_cons_space (c : Char) (hc : pySpace c = true) (s : PyStr) :
    pyStrip (c :: s) = pyStrip s := by
  simp [pyStrip, List.dropWhile, hc]

/-- A string containing a non-whitespace character strips to a nonempty string. -/
theorem pyStrip_ne_nil_of_mem {s : PyStr} {c : Char}
    (hm : c ∈ s) (hc : pySpace c = false) : pyStrip s ≠ [] := by
  intro hnil
  unfold pyStrip at hnil
  have h1 : (s.dropWhile pySpace).reverse.dropWhile pySpace = [] := by
    have := congrArg List.reverse hnil
    simpa using this
  have hmem1 : c ∈ s.dropWhile pySpace := by
    have hsplit := List.takeWhile_append_dropWhile (p := pySpace) (l := s)
    rcases List.mem_append.mp (by rw [hsplit]; exact hm) with htk | hdr
    · exact absurd (List.mem_takeWhile_imp htk) (by simp [hc])
    · exact hdr
  have hmem2 : c ∈ (s.dropWhile pySpace).reverse.dropWhile pySpace := by
    have hsplit := List.takeWhile_append_dropWhile (p := pySpace)
      (l := (s.dropWhile pySpace).reverse)
    rcases List.mem_append.mp (by rw [hsplit]; exact List.mem_reverse.mpr hmem1) with htk | hdr
    · exact absurd (List.mem_takeWhile_imp htk) (by simp [hc])
    · exact hdr
  rw [h1] at hmem2
  exact absurd hmem2 (List.not_mem_nil c)

/-! ### Correctness of the printer against the parser -/

theorem digitsRevAux_undigits {fuel n : ℕ} (h : n ≤ fuel) :
    undigits (digitsRevAux fuel n) = n := by
  induction fuel generalizing n with
  | zero => interval_cases n; simp [digitsRevAux, undigits]
  | succ fuel ih =>
      by_cases hn : n = 0
      · simp [digitsRevAux, hn, undigits]
      · have hlt : n / 10 ≤ fuel := by
          have : n / 10 < n := Nat.div_lt_self (Nat.pos_of_ne_zero hn) (by norm_num)
          omega
        simp only [digitsRevAux, if_neg hn, undigits, ih hlt]
        omega

theorem undigits_digitsRev (n : ℕ) : undigits (digitsRev n) = n :=
  digitsRevAux_undigits (Nat.le_refl n)

theorem digitsRevAux_lt_ten {fuel n : ℕ} : ∀ d ∈ digitsRevAux fuel n, d < 10 := by
  induction fuel generalizing n with
  | zero => intro d hd; simp [digitsRevAux] at hd
  | succ fuel ih =>
      intro d hd
      by_cases hn : n = 0
      · simp [digitsRevAux, hn] at hd
      · simp only [digitsRevAux, if_neg hn, List.mem_cons] at hd
        rcases hd with h | h
        · subst h; omega
        · exact ih d h

theorem charVal_digitChar {d : ℕ} (h : d < 10) : charVal (digitChar d) = d := by
  interval_cases d <;> decide

theorem isDigitChar_digitChar {d : ℕ} (h : d < 10) : isDigitChar (digitChar d) = true := by
  interval_cases d <;> decide

theorem isDigitChar_elim {c : Char} (h : isDigitChar c = true) :
    c = '0' ∨ c = '1' ∨ c = '2' ∨ c = '3' ∨ c = '4' ∨
    c = '5' ∨ c = '6' ∨ c = '7' ∨ c = '8' ∨ c = '9' := by
  simpa [isDigitChar] using h

theorem digitChar_isDigit {c : Char} (h : isDigitChar c = true) :
    c ≠ '.' ∧ c ≠ ',' ∧ c ≠ '-' ∧ c ≠ '+' ∧ pySpace c = false := by
  rcases isDigitChar_elim h with h | h | h | h | h | h | h | h | h | h <;> subst h <;> decide

theorem foldr_map_digitChar (ds : List ℕ) (h : ∀ d ∈ ds, d < 10) :
    (ds.map digitChar).foldr (fun c acc => 10 * acc + charVal c) 0 = undigits ds := by
  induction ds with
  | nil => rfl
  | cons d rest ih =>
      have hd : d < 10 := h d (List.mem_cons_self d rest)
      have hr := ih fun e he => h e (List.mem_cons_of_mem _ he)
      simp only [List.map_cons, List.foldr_cons, hr, undigits,
        charVal_digitChar hd]
      ring

theorem natOfDigits_natToDigitsStr (n : ℕ) :
    natOfDigits (natToDigitsStr n) = n := by
  by_cases hn : n = 0
  · subst hn; decide
  · unfold natToDigitsStr natOfDigits
    rw [if_neg hn, List.foldl_reverse]
    exact (foldr_map_digitChar (digitsRev n)
      (fun d hd => digitsRevAux_lt_ten d hd)).trans (undigits_digitsRev n)

theorem natToDigitsStr_all_digits (n : ℕ) :
    ∀ c ∈ natToDigitsStr n, isDigitChar c = true := by
  intro c hc
  unfold natToDigitsStr at hc
  by_cases hn : n = 0
  · rw [if_pos hn] at hc; simp at hc; subst hc; decide
  · rw [if_neg hn] at hc
    rcases List.mem_map.mp (List.mem_reverse.mp hc) with ⟨d, hd, hdc⟩
    have : d < 10 := digitsRevAux_lt_ten d hd
    subst hdc
    exact isDigitChar_digitChar this

theorem digitsRev_ne_nil {n : ℕ} (hn : n ≠ 0) : digitsRev n ≠ [] := by
  unfold digitsRev
  cases n with
  | zero => exact absurd rfl hn
  | succ j => simp [digitsRevAux]

theorem natToDigitsStr_ne_nil (n : ℕ) : natToDigitsStr n ≠ [] := by
  unfold natToDigitsStr
  by_cases hn : n = 0
  · simp [hn]
  · rw [if_neg hn]
    simp [digitsRev_ne_nil hn]

theorem digitsRevAux_length_le {fuel n k : ℕ} (h : n < 10 ^ k) :
    (digitsRevAux fuel n).length ≤ k := by
  induction fuel generalizing n k with
  | zero => simp [digitsRevAux]
  | succ fuel ih =>
      by_cases hn : n = 0
      · simp [digitsRevAux, hn]
      · cases k with
        | zero => simp at h; omega
        | succ j =>
            have hq : n / 10 < 10 ^ j := by
              rw [Nat.div_lt_iff_lt_mul (by norm_num)]
              calc n < 10 ^ (j + 1) := h
                _ = 10 ^ j * 10 := by ring
            simp only [digitsRevAux, if_neg hn, List.length_cons]
            exact Nat.succ_le_succ (ih hq)

theorem natToDigitsStr_length_le {n k : ℕ} (hk : 1 ≤ k) (h : n < 10 ^ k) :
    (natToDigitsStr n).length ≤ k := by
  unfold natToDigitsStr
  by_cases hn : n = 0
  · simpa [hn] using hk
  · rw [if_neg hn]
    simpa using digitsRevAux_length_le h

theorem natOfDigits_replicate_zero (j : ℕ) (s : PyStr) :
    natOfDigits (List.replicate j '0' ++ s) = natOfDigits s := by
  induction j with
  | zero => rfl
  | succ i ih =>
      show natOfDigits (('0' :: List.replicate i '0') ++ s) = natOfDigits s
      unfold natOfDigits at ih ⊢
      simp only [List.cons_append, List.foldl_cons]
      have : 10 * 0 + charVal '0' = 0 := by decide
      rw [this]
      exact ih

theorem natOfDigits_padLeftZeros (k : ℕ) (s : PyStr) :
    natOfDigits (padLeftZeros k s) = natOfDigits s :=
  natOfDigits_replicate_zero _ s

theorem padLeftZeros_length {k : ℕ} {s : PyStr} (h : s.length ≤ k) :
    (padLeftZeros k s).length = k := by
  simp [padLeftZeros]
  omega

theorem padLeftZeros_all_digits {k : ℕ} {s : PyStr}
    (h : ∀ c ∈ s, isDigitChar c = true) :
    ∀ c ∈ padLeftZeros k s, isDigitChar c = true := by
  intro c hc
  rcases List.mem_append.mp hc with hrep | hs
  · have := List.eq_of_mem_replicate hrep; subst this; decide
  · exact h c hs

theorem natOfDigits_append (a b : PyStr) :
    natOfDigits (a ++ b) = natOfDigits a * 10 ^ b.length + natOfDigits b := by
  have gen : ∀ (b : PyStr) (acc : ℕ),
      b.foldl (fun acc c => 10 * acc + charVal c) acc
        = acc * 10 ^ b.length + natOfDigits b := by
    intro b
    induction b with
    | nil => intro acc; simp [natOfDigits]
    | cons c r ih =>
        intro acc
        have h1 := ih (10 * acc + charVal c)
        have h2 := ih (charVal c)
        simp only [List.foldl_cons, List.length_cons]
        rw [h1]
        have : natOfDigits (c :: r) = charVal c * 10 ^ r.length + natOfDigits r := by
          unfold natOfDigits
          simp only [List.foldl_cons]
          calc r.foldl (fun acc c => 10 * acc + charVal c) (10 * 0 + charVal c)
              = r.foldl (fun acc c => 10 * acc + charVal c) (charVal c) := by norm_num
            _ = charVal c * 10 ^ r.length + natOfDigits r := h2
        rw [this]
        ring
  unfold natOfDigits
  rw [List.foldl_append]
  exact gen b _

theorem map_eq_self_of_forall {f : Char → Char} {s : PyStr}
    (h : ∀ c ∈ s, f c = c) : s.map f = s := by
  induction s with
  | nil => rfl
  | cons c rest ih =>
      simp only [List.map_cons, h c (List.mem_cons_self c rest),
        ih fun e he => h e (List.mem_cons_of_mem _ he)]

theorem parseUnsigned_natToDigitsStr (n : ℕ) :
    parseUnsigned (natToDigitsStr n) = some (n : ℚ) := by
  have hnodot : '.' ∉ natToDigitsStr n := fun hm =>
    (digitChar_isDigit (natToDigitsStr_all_digits n _ hm)).1 rfl
  unfold parseUnsigned
  rw [pySplit_of_not_mem _ _ hnodot]
  simp only [parseUnsignedCore, parseDigits]
  rw [if_pos ⟨natToDigitsStr_ne_nil n,
    List.all_eq_true.mpr fun c hc => natToDigitsStr_all_digits n c hc⟩]
  rw [natOfDigits_natToDigitsStr]

theorem parseUnsigned_point {a b k : ℕ} (hk : 1 ≤ k) (hb : b < 10 ^ k) :
    parseUnsigned (natToDigitsStr a ++ '.' :: padLeftZeros k (natToDigitsStr b))
      = some (((a * 10 ^ k + b : ℕ) : ℚ) / 10 ^ k) := by
  have hipdig : ∀ c ∈ natToDigitsStr a, isDigitChar c = true :=
    natToDigitsStr_all_digits a
  have hfpdig : ∀ c ∈ padLeftZeros k (natToDigitsStr b), isDigitChar c = true :=
    padLeftZeros_all_digits (natToDigitsStr_all_digits b)
  have hnodot1 : '.' ∉ natToDigitsStr a := fun hm =>
    (digitChar_isDigit (hipdig _ hm)).1 rfl
  have hnodot2 : '.' ∉ padLeftZeros k (natToDigitsStr b) := fun hm =>
    (digitChar_isDigit (hfpdig _ hm)).1 rfl
  have hfplen : (padLeftZeros k (natToDigitsStr b)).length = k :=
    padLeftZeros_length (natToDigitsStr_length_le hk hb)
  unfold parseUnsigned
  rw [pySplit_append_sep '.' _ hnodot1, pySplit_of_not_mem '.' _ hnodot2]
  simp only [parseUnsignedCore]
  rw [if_pos]
  · rw [natOfDigits_append, hfplen, natOfDigits_padLeftZeros,
      natOfDigits_natToDigitsStr, natOfDigits_natToDigitsStr,
      Rat.divInt_eq_div]
    push_cast
    ring_nf
  · constructor
    · simp [natToDigitsStr_ne_nil a]
    · rw [List.all_append, Bool.and_eq_true]
      exact ⟨List.all_eq_true.mpr hipdig, List.all_eq_true.mpr hfpdig⟩

theorem numToStr_mem {q : ℚ} {c : Char} (h : c ∈ numToStr q) :
    isDigitChar c = true ∨ c = '-' ∨ c = '.' := by
  have hsign : ∀ x, c ∈ (if q.num < 0 then ['-'] else ([] : PyStr)) ++ natToDigitsStr x →
      isDigitChar c = true ∨ c = '-' ∨ c = '.' := by
    intro x hx
    rcases List.mem_append.mp hx with h1 | h2
    · by_cases hneg : q.num < 0
      · rw [if_pos hneg] at h1
        simp only [List.mem_singleton] at h1
        exact Or.inr (Or.inl h1)
      · rw [if_neg hneg] at h1
        exact absurd h1 (List.not_mem_nil c)
    · exact Or.inl (natToDigitsStr_all_digits _ _ h2)
  unfold numToStr at h
  by_cases hk0 : decPow q.den = 0
  · rw [if_pos hk0] at h
    exact hsign _ h
  · rw [if_neg hk0] at h
    rcases List.mem_append.mp h with h1 | h2
    · exact hsign _ h1
    · rcases List.mem_cons.mp h2 with h3 | h4
      · exact Or.inr (Or.inr h3)
      · exact Or.inl (padLeftZeros_all_digits (natToDigitsStr_all_digits _) _ h4)

theorem numToStr_no_space {q : ℚ} : ∀ c ∈ numToStr q, pySpace c = false := by
  intro c hc
  rcases numToStr_mem hc with h | h | h
  · exact (digitChar_isDigit h).2.2.2.2
  · subst h; decide
  · subst h; decide

theorem pyStrip_numToStr (q : ℚ) : pyStrip (numToStr q) = numToStr q :=
  pyStrip_eq_self_of_no_space numToStr_no_space

/-- `numToStr` never contains a comma, so the comma-to-dot regex
replacement leaves a stringified number unchanged. -/
theorem pyReplace_comma_numToStr (q : ℚ) :
    pyReplace ',' '.' (numToStr q) = numToStr q := by
  apply map_eq_self_of_forall
  intro c hc
  have hne : c ≠ ',' := by
    rcases numToStr_mem hc with h | h | h
    · exact (digitChar_isDigit h).2.1
    · subst h; decide
    · subst h; decide
  simp [hne]

theorem parseSigned_digit_head {d : Char} {r : PyStr} (hd : isDigitChar d = true) :
    parseSigned (d :: r) = parseUnsigned (d :: r) := by
  have h1 := (digitChar_isDigit hd).2.2.1
  have h2 := (digitChar_isDigit hd).2.2.2.1
  simp [parseSigned, h1, h2]

/-- Scaling identity: the scaled numerator over `10 ^ decPow` recovers
the absolute value of the rational. -/
theorem decScaled_div_pow {q : ℚ} (hq : IsDecimal q) :
    ((decScaled q : ℕ) : ℚ) / 10 ^ decPow q.den = (q.num.natAbs : ℚ) / q.den := by
  obtain ⟨c, hc⟩ := hq
  have hden : 0 < q.den := q.pos
  have hdiv : 10 ^ decPow q.den / q.den = c := by
    rw [hc]; exact Nat.mul_div_cancel_left c hden
  have hc0 : c ≠ 0 := by
    intro h0
    rw [h0, Nat.mul_zero] at hc
    have hpos : (0 : ℕ) < 10 ^ decPow q.den := Nat.pos_pow_of_pos _ (by norm_num)
    omega
  have h10 : (10 : ℚ) ^ decPow q.den = (q.den : ℚ) * c := by
    have := congrArg (fun n : ℕ => (n : ℚ)) hc
    push_cast at this
    exact this
  unfold decScaled
  rw [hdiv, h10]
  push_cast
  rw [mul_div_mul_right _ _ (by exact_mod_cast hc0)]

/-- Round trip of the decimal printer through the numeric parser. -/
theorem parseNum_numToStr {q : ℚ} (hq : IsDecimal q) :
    parseNum (numToStr q) = some q := by
  have hden : 0 < q.den := q.pos
  have habs : ((q.num.natAbs : ℕ) : ℚ) / q.den = if q.num < 0 then -q else q := by
    by_cases hneg : q.num < 0
    · rw [if_pos hneg]
      have h2 : ((q.num.natAbs : ℕ) : ℚ) = -(q.num : ℚ) := by
        rw [Int.cast_natAbs, Int.cast_abs]
        exact abs_of_neg (by exact_mod_cast hneg)
      rw [h2, neg_div, Rat.num_div_den]
    · rw [if_neg hneg]
      have h2 : ((q.num.natAbs : ℕ) : ℚ) = (q.num : ℚ) := by
        rw [Int.cast_natAbs, Int.cast_abs]
        exact abs_of_nonneg (by exact_mod_cast not_lt.mp hneg)
      rw [h2, Rat.num_div_den]
  unfold parseNum
  rw [pyStrip_numToStr]
  by_cases hk0 : decPow q.den = 0
  · have hden1 : q.den = 1 := by
      have := hq
      unfold IsDecimal at this
      rw [hk0, pow_zero] at this
      exact Nat.dvd_one.mp this
    have hscaled : decScaled q = q.num.natAbs := by
      unfold decScaled
      rw [hk0, pow_zero, hden1]
      norm_num
    have hstr : numToStr q
        = (if q.num < 0 then ['-'] else []) ++ natToDigitsStr q.num.natAbs := by
      unfold numToStr
      rw [if_pos hk0, hscaled]
    rw [hstr]
    have hval : ((q.num.natAbs : ℕ) : ℚ) = if q.num < 0 then -q else q := by
      have := habs
      rw [hden1] at this
      simpa using this
    by_cases hneg : q.num < 0
    · rw [if_pos hneg]
      show parseSigned ('-' :: natToDigitsStr q.num.natAbs) = some q
      have : ('-' : Char) = '-' := rfl
      simp only [parseSigned, if_pos this]
      rw [parseUnsigned_natToDigitsStr]
      rw [hval, if_pos hneg]
      simp
    · rw [if_neg hneg, List.nil_append]
      obtain ⟨d, r, hdr⟩ := List.exists_cons_of_ne_nil (natToDigitsStr_ne_nil q.num.natAbs)
      have hddig : isDigitChar d = true :=
        natToDigitsStr_all_digits _ d (by rw [hdr]; exact List.mem_cons_self d r)
      rw [hdr, parseSigned_digit_head hddig]
      rw [← hdr, parseUnsigned_natToDigitsStr, hval, if_neg hneg]
  · have hk1 : 1 ≤ decPow q.den := Nat.one_le_iff_ne_zero.mpr hk0
    have hb : decScaled q % 10 ^ decPow q.den < 10 ^ decPow q.den :=
      Nat.mod_lt _ (Nat.pos_pow_of_pos _ (by norm_num))
    have hmod : decScaled q / 10 ^ decPow q.den * 10 ^ decPow q.den
        + decScaled q % 10 ^ decPow q.den = decScaled q := by
      rw [Nat.mul_comm]
      exact Nat.div_add_mod _ _
    have hpoint := parseUnsigned_point (a := decScaled q / 10 ^ decPow q.den)
      (b := decScaled q % 10 ^ decPow q.den) hk1 hb
    rw [hmod] at hpoint
    have hstr : numToStr q
        = ((if q.num < 0 then ['-'] else []) ++
            natToDigitsStr (decScaled q / 10 ^ decPow q.den)) ++
          '.' :: padLeftZeros (decPow q.den)
            (natToDigitsStr (decScaled q % 10 ^ decPow q.den)) := by
      unfold numToStr
      rw [if_neg hk0]
    rw [hstr]
    have hfinal : ((decScaled q : ℕ) : ℚ) / 10 ^ decPow q.den
        = if q.num < 0 then -q else q := by
      rw [decScaled_div_pow hq, habs]
    by_cases hneg : q.num < 0
    · rw [if_pos hneg, List.cons_append, List.nil_append]
      show parseSigned ('-' :: (natToDigitsStr _ ++ '.' :: padLeftZeros _ _)) = some q
      have : ('-' : Char) = '-' := rfl
      simp only [parseSigned, if_pos this]
      rw [hpoint]
      rw [hfinal, if_pos hneg]
      simp
    · rw [if_neg hneg, List.nil_append]
      obtain ⟨d, r, hdr⟩ :=
        List.exists_cons_of_ne_nil (natToDigitsStr_ne_nil (decScaled q / 10 ^ decPow q.den))
      have hddig : isDigitChar d = true :=
        natToDigitsStr_all_digits _ d (hdr ▸ List.mem_cons_self d r)
      rw [hdr, List.cons_append]
      rw [parseSigned_digit_head hddig]
      rw [← List.cons_append, ← hdr, hpoint, hfinal, if_neg hneg]

/-! ### Column-name preservation of the normalization steps -/

theorem numCol_name (c : Col) : (numCol c).name = c.name := by
  unfold numCol
  by_cases h : c.name ∈ numeric_columns <;> simp [h]

theorem kantonCol_name (c : Col) : (kantonCol c).name = c.name := by
  unfold kantonCol
  by_cases h : c.name = "Kanton" <;> simp [h]

theorem excelCol_name (c : Col) : (excelCol c).name = c.name := by
  unfold excelCol
  by_cases h : c.dtype = .float64 ∨ c.dtype = .int64 <;> simp [h]

theorem fillnaCol_name (c : Col) : (fillnaCol c).name = c.name := rfl

theorem numCol_cells_length (c : Col) : (numCol c).cells.length = c.cells.length := by
  unfold numCol
  by_cases h : c.name ∈ numeric_columns <;> simp [h]

theorem kantonCol_cells_length (c : Col) : (kantonCol c).cells.length = c.cells.length := by
  unfold kantonCol
  by_cases h : c.name = "Kanton" <;> simp [h]

theorem excelCol_cells_length (c : Col) : (excelCol c).cells.length = c.cells.length := by
  unfold excelCol
  by_cases h : c.dtype = .float64 ∨ c.dtype = .int64 <;> simp [h]

theorem fillnaCol_cells_length (c : Col) : (fillnaCol c).cells.length = c.cells.length := by
  simp [fillnaCol]

theorem names_toNumericStep (t : Table) : (toNumericStep t).names = t.names := by
  unfold toNumericStep Table.names
  simp only [List.map_map]
  exact List.map_congr_left fun c _ => numCol_name c

theorem names_kantonStep (t : Table) : (kantonStep t).names = t.names := by
  unfold kantonStep Table.names
  simp only [List.map_map]
  exact List.map_congr_left fun c _ => kantonCol_name c

theorem names_replace_commas_with_dots_excel (t : Table) :
    (replace_commas_with_dots_excel t).names = t.names := by
  unfold replace_commas_with_dots_excel Table.names
  simp only [List.map_map]
  exact List.map_congr_left fun c _ => excelCol_name c

theorem names_fillnaStep (t : Table) : (fillnaStep t).names = t.names := by
  unfold fillnaStep Table.names
  simp only [List.map_map]
  exact List.map_congr_left fun c _ => fillnaCol_name c

theorem names_normalizeSteps (t : Table) : (normalizeSteps t).names = t.names := by
  unfold normalizeSteps
  rw [names_fillnaStep, names_replace_commas_with_dots_excel,
    names_kantonStep, names_toNumericStep]

/-! ### Generic list lemmas for the converter proofs -/

theorem list_map_id_of_forall {α : Type} {f : α → α} {l : List α}
    (h : ∀ a ∈ l, f a = a) : l.map f = l := by
  induction l with
  | nil => rfl
  | cons a rest ih =>
      simp only [List.map_cons, h a (List.mem_cons_self a rest),
        ih fun b hb => h b (List.mem_cons_of_mem _ hb)]

theorem exceptMapM_ok {α β : Type} {f : α → Except Err β} {g : α → β} {l : List α}
    (h : ∀ a ∈ l, f a = .ok (g a)) : exceptMapM f l = .ok (l.map g) := by
  induction l with
  | nil => rfl
  | cons a rest ih =>
      simp only [exceptMapM, h a (List.mem_cons_self a rest), List.map_cons,
        ih fun b hb => h b (List.mem_cons_of_mem _ hb)]

theorem exceptMapM_error_uniform {α β : Type} {f : α → Except Err β} {l : List α} {E : Err}
    (hex : ∃ a ∈ l, f a = .error E)
    (huni : ∀ x ∈ l, f x = .error E ∨ ∃ b, f x = .ok b) :
    exceptMapM f l = .error E := by
  induction l with
  | nil => rcases hex with ⟨a, ha, _⟩; exact absurd ha (List.not_mem_nil a)
  | cons x rest ih =>
      rcases huni x (List.mem_cons_self x rest) with hx | ⟨b, hb⟩
      · simp [exceptMapM, hx]
      · have hex' : ∃ a ∈ rest, f a = .error E := by
          rcases hex with ⟨a, ha, hae⟩
          rcases List.mem_cons.mp ha with rfl | hmem
          · rw [hb] at hae; exact absurd hae (by simp)
          · exact ⟨a, hmem, hae⟩
        have := ih hex' fun y hy => huni y (List.mem_cons_of_mem _ hy)
        simp [exceptMapM, hb, this]

theorem getD_range_map {α : Type} (d : α) {l : List α} {n : ℕ} (h : l.length = n) :
    (List.range n).map (fun i => l.getD i d) = l := by
  subst h
  induction l with
  | nil => rfl
  | cons a rest ih =>
      calc (List.range (a :: rest).length).map (fun i => (a :: rest).getD i d)
          = a :: (List.range rest.length).map (fun i => rest.getD i d) := by
            rw [List.length_cons, List.range_succ_eq_map, List.map_cons, List.map_map]
            rfl
        _ = a :: rest := by rw [ih]

theorem map_eq_range_map {α β : Type} (d : α) (F : α → β) {l : List α} {n : ℕ}
    (h : l.length = n) : l.map F = (List.range n).map fun i => F (l.getD i d) := by
  conv_lhs => rw [← getD_range_map d h]
  rw [List.map_map]
  rfl

theorem get?_eq_some_getD {α : Type} (d : α) {l : List α} {i : ℕ} (h : i < l.length) :
    l.get? i = some (l.getD i d) := by
  induction l generalizing i with
  | nil => simp at h
  | cons a rest ih =>
      cases i with
      | zero => rfl
      | succ j => exact ih (by simpa using h)

theorem getD_map_lt {α β : Type} (f : α → β) (d : α) (d2 : β) {l : List α} {i : ℕ}
    (h : i < l.length) : (l.map f).getD i d2 = f (l.getD i d) := by
  induction l generalizing i with
  | nil => simp at h
  | cons a rest ih =>
      cases i with
      | zero => rfl
      | succ j => exact ih (by simpa using h)

theorem colIdx_get? {cols : List String} {c : String} {j : ℕ}
    (hj : colIdx cols c = some j) : cols.get? j = some c := by
  induction cols generalizing j with
  | nil => simp [colIdx] at hj
  | cons x xs ih =>
      unfold colIdx at hj
      by_cases hx : x = c
      · rw [if_pos hx] at hj
        injection hj with hj0
        subst hj0
        simpa using hx
      · rw [if_neg hx] at hj
        rcases Option.map_eq_some'.mp hj with ⟨j', hj', rfl⟩
        simpa using ih hj'

theorem colIdx_isSome_of_mem {cols : List String} {c : String} (h : c ∈ cols) :
    ∃ j, colIdx cols c = some j := by
  induction cols with
  | nil => exact absurd h (List.not_mem_nil c)
  | cons x xs ih =>
      by_cases hx : x = c
      · exact ⟨0, by simp [colIdx, hx]⟩
      · rcases List.mem_cons.mp h with rfl | hm
        · exact absurd rfl hx
        · rcases ih hm with ⟨j, hj⟩
          exact ⟨j + 1, by simp [colIdx, hx, hj]⟩

theorem colIdx_none_of_not_mem {cols : List String} {c : String} (h : c ∉ cols) :
    colIdx cols c = none := by
  induction cols with
  | nil => rfl
  | cons x xs ih =>
      have hx : x ≠ c := fun hc => h (by simp [hc])
      have hm : c ∉ xs := fun hc => h (List.mem_cons_of_mem _ hc)
      simp [colIdx, hx, ih hm]

/-- Reading back position `j` of a name-indexed row recovers the value
under the name at `j`. -/
theorem getD_map_of_colIdx {cols : List String} {g : String → Val} {c : String} {j : ℕ}
    (hj : colIdx cols c = some j) : (cols.map g).getD j .nan = g c := by
  induction cols generalizing j with
  | nil => simp [colIdx] at hj
  | cons x xs ih =>
      unfold colIdx at hj
      by_cases hx : x = c
      · rw [if_pos hx] at hj
        injection hj with hj0
        subst hj0
        simp [hx]
      · rw [if_neg hx] at hj
        rcases Option.map_eq_some'.mp hj with ⟨j', hj', rfl⟩
        simpa using ih hj'

/-! ### Claims settled directly -/

/-- C3: for every tabular document that lacks a column named `geometry`,
`convert_to_geojson` signals the missing-geometry-column condition
(warning plus `return None`) and produces no output bytes. -/
theorem missing_geometry_column_aborts (t : Table) (h : "geometry" ∉ t.names) :
    convert_to_geojson t = .error .missingGeometryColumn := by
  unfold convert_to_geojson
  rw [if_neg (by rw [names_normalizeSteps]; exact h)]

/-- Witness for C3 at a concrete one-column document. -/
theorem missing_geometry_column_aborts_witness :
    "geometry" ∉ tNoGeom.names ∧
      convert_to_geojson tNoGeom = .error .missingGeometryColumn :=
  ⟨by decide, missing_geometry_column_aborts tNoGeom (by decide)⟩

/-- C4: for every input document whose top-level object has no
`features` list, `convert_geojson_to_excel` raises `KeyError` at
`raw["features"]` — the malformed-feature-collection condition — before
any row is built, so no output rows are produced. -/
theorem missing_features_aborts (d : GeoDoc) (h : d.features = none) :
    convert_geojson_to_excel d = .error (.keyError "features") := by
  unfold convert_geojson_to_excel
  rw [h]

/-- Witness for C4 at the concrete featureless document. -/
theorem missing_features_aborts_witness :
    GeoDoc.features ⟨none⟩ = none ∧
      convert_geojson_to_excel ⟨none⟩ = .error (.keyError "features") :=
  ⟨rfl, missing_features_aborts ⟨none⟩ rfl⟩

/-- C1 (failing evaluation): in `convert_to_geojson` the numeric
coercion of line 34 runs before the only comma-replacement call
(line 41), and that helper never fires (its dtype guard excludes string
cells), so the comma spelling `"12,5"` of `GesamthoeheM` coerces to NaN
and ends as the empty string in the output properties, while `"12.5"`
yields the number 12.5 — the two spellings do NOT normalize to the same
numeric value. -/
theorem comma_decimal_coerced_to_null :
    convert_to_geojson tComma
        = .ok ⟨some [⟨[("GesamthoeheM", .jstr [])], some (.point 1 2)⟩]⟩ ∧
      convert_to_geojson tDot
        = .ok ⟨some [⟨[("GesamthoeheM", .jnum (Rat.divInt 25 2))], some (.point 1 2)⟩]⟩ ∧
      (JVal.jstr [] ≠ JVal.jnum (Rat.divInt 25 2)) := by
  refine ⟨by decide, by decide, by decide⟩

/-- C9: the write request carries the revision token exactly when the
preceding read returned one (`PublishClient`, modelled from the spec —
no publish code exists under `src/`). -/
theorem publish_request_sha (payload : List ℕ) (branch : String) :
    (buildWriteRequest payload branch none).sha = none ∧
      ∀ s : String, (buildWriteRequest payload branch (some s)).sha = some s :=
  ⟨rfl, fun _ => rfl⟩

/-! ### The multi-value column: split and join -/

theorem joinSep_cons_cons (a b : PyStr) (rest : List PyStr) :
    pyJoinSep [',', ' '] (a :: b :: rest)
      = a ++ ',' :: ' ' :: pyJoinSep [',', ' '] (b :: rest) := by
  show a ++ [',', ' '] ++ pyJoinSep [',', ' '] (b :: rest) = _
  rw [List.append_assoc]
  rfl

theorem comma_not_mem_space_cons {b : PyStr} (hb : ',' ∉ b) : ',' ∉ ' ' :: b := by
  intro hmem
  rcases List.mem_cons.mp hmem with h | h
  · exact absurd h (by decide)
  · exact hb h

theorem splitJoin_space_aux (m : List PyStr) (hm : m ≠ [])
    (hstrip : ∀ s ∈ m, pyStrip s = s) (hcomma : ∀ s ∈ m, ',' ∉ s) :
    (pySplit ',' (' ' :: pyJoinSep [',', ' '] m)).map pyStrip = m := by
  induction m with
  | nil => exact absurd rfl hm
  | cons b rest ih =>
      cases rest with
      | nil =>
          have hcb : ',' ∉ ' ' :: b := comma_not_mem_space_cons (hcomma b (by simp))
          rw [show pyJoinSep [',', ' '] [b] = b from rfl]
          rw [pySplit_of_not_mem ',' (' ' :: b) hcb]
          rw [List.map_singleton, pyStrip_cons_space ' ' (by decide) b,
            hstrip b (by simp)]
      | cons c rest2 =>
          have hb : ',' ∉ ' ' :: b := comma_not_mem_space_cons (hcomma b (by simp))
          have hshape : ' ' :: pyJoinSep [',', ' '] (b :: c :: rest2)
              = (' ' :: b) ++ ',' :: (' ' :: pyJoinSep [',', ' '] (c :: rest2)) := by
            rw [joinSep_cons_cons]
            rfl
          rw [hshape, pySplit_append_sep ',' (' ' :: b) hb, List.map_cons]
          rw [pyStrip_cons_space ' ' (by decide) b, hstrip b (by simp)]
          rw [ih (by simp)
            (fun s hs => hstrip s (List.mem_cons_of_mem _ hs))
            (fun s hs => hcomma s (List.mem_cons_of_mem _ hs))]

/-- Splitting the `", "`-join recovers any list of comma-free,
whitespace-trimmed strings other than `[""]`. -/
theorem splitJoin_eq (l : List PyStr) (hstrip : ∀ s ∈ l, pyStrip s = s)
    (hcomma : ∀ s ∈ l, ',' ∉ s) (hne : l ≠ [[]]) :
    kantonSplitCell (join_kanton (.vlist l)) = .vlist l := by
  cases l with
  | nil =>
      rw [show join_kanton (.vlist []) = .str [] from rfl]
      simp only [kantonSplitCell]
      rw [if_neg (by simp [pyStrip_nil])]
  | cons a rest =>
      cases rest with
      | nil =>
          have ha : a ≠ [] := fun h0 => hne (by rw [h0])
          have hsa : pyStrip a = a := hstrip a (by simp)
          rw [show join_kanton (.vlist [a]) = .str a from rfl]
          simp only [kantonSplitCell]
          rw [if_pos (by rw [hsa]; exact ha)]
          rw [pySplit_of_not_mem ',' a (hcomma a (by simp)), List.map_singleton, hsa]
      | cons b rest2 =>
          have hjoin : join_kanton (.vlist (a :: b :: rest2))
              = .str (a ++ ',' :: ' ' :: pyJoinSep [',', ' '] (b :: rest2)) := by
            simp only [join_kanton]
            rw [show pyJoinSep ", ".data (a :: b :: rest2)
                = pyJoinSep [',', ' '] (a :: b :: rest2) from rfl, joinSep_cons_cons]
          rw [hjoin]
          simp only [kantonSplitCell]
          rw [if_pos (pyStrip_ne_nil_of_mem
            (by exact List.mem_append.mpr (Or.inr (List.mem_cons_self _ _)))
            (by decide))]
          rw [pySplit_append_sep ',' a (hcomma a (by simp)), List.map_cons,
            hstrip a (by simp)]
          rw [splitJoin_space_aux (b :: rest2) (by simp)
            (fun s hs => hstrip s (List.mem_cons_of_mem _ hs))
            (fun s hs => hcomma s (List.mem_cons_of_mem _ hs))]

/-- C6 (counterexample): `[""]` is a list of non-comma-containing
strings, yet split-after-join returns `[]`, not `[""]`: the split
lambda maps the joined value `""` to the empty list. -/
theorem split_join_singleton_empty_cex :
    join_kanton (.vlist [[]]) = .str [] ∧
      kantonSplitCell (.str []) = .vlist [] ∧
      Val.vlist ([] : List PyStr) ≠ .vlist [[]] := by
  refine ⟨by decide, by decide, by decide⟩

/-- C6 (amended): `split(join(list)) = list` holds for every list of
non-comma-containing strings that are unchanged by whitespace
trimming, except the singleton `[""]` (whose join `""` splits to `[]`);
and `join(split("")) = ""`. -/
theorem split_join_inverse (l : List PyStr) (hstrip : ∀ s ∈ l, pyStrip s = s)
    (hcomma : ∀ s ∈ l, ',' ∉ s) (hne : l ≠ [[]]) :
    kantonSplitCell (join_kanton (.vlist l)) = .vlist l ∧
      join_kanton (kantonSplitCell (.str [])) = .str [] :=
  ⟨splitJoin_eq l hstrip hcomma hne, by decide⟩

/-- Witness for C6 at `["ZH", "BE"]`. -/
theorem split_join_inverse_witness :
    kantonSplitCell (join_kanton (.vlist ["ZH".data, "BE".data]))
        = .vlist ["ZH".data, "BE".data] ∧
      join_kanton (kantonSplitCell (.str [])) = .str [] :=
  split_join_inverse ["ZH".data, "BE".data] (by decide) (by decide) (by decide)

/-- C7 (counterexample): the whitespace-only cell `" "` is a non-empty
string, but the ingestion lambda maps it to the empty sequence instead
of splitting it (which would give `[""]`). -/
theorem kanton_blank_string_cex :
    kantonSplitCell (fillnaCell (.str [' '])) = .vlist [] ∧
      Val.vlist [] ≠ .vlist ((pySplit ',' [' ']).map pyStrip) := by
  refine ⟨by decide, by decide⟩

/-- C7 (amended): per cell, the multi-value column converts as follows.
Tabular → geo: a string that is non-empty after trimming is split on
commas with each piece trimmed; a string that is empty or
whitespace-only, and an absent cell (NaN), give the empty sequence.
Geo → tabular: a sequence is rejoined with `", "`; a null gives the
empty string; an absent cell (NaN) gives the string `"nan"`
(`str(nan)`), not the empty string. -/
theorem kanton_conversion :
    (∀ s : PyStr, pyStrip s ≠ [] →
        kantonSplitCell (fillnaCell (.str s)) = .vlist ((pySplit ',' s).map pyStrip)) ∧
      (∀ s : PyStr, pyStrip s = [] → kantonSplitCell (fillnaCell (.str s)) = .vlist []) ∧
      kantonSplitCell (fillnaCell .nan) = .vlist [] ∧
      (∀ l : List PyStr, join_kanton (.vlist l) = .str (pyJoinSep ", ".data l)) ∧
      join_kanton .pynone = .str [] ∧
      join_kanton .nan = .str "nan".data := by
  refine ⟨?_, ?_, by decide, fun l => rfl, by decide, by decide⟩
  · intro s hs
    show kantonSplitCell (.str s) = _
    simp only [kantonSplitCell]
    rw [if_pos hs]
  · intro s hs
    show kantonSplitCell (.str s) = _
    simp only [kantonSplitCell]
    rw [if_neg (by rw [hs]; exact fun h => h rfl)]

/-- Witness for C7 at the example cell `"ZH, BE"` and `"  "`. -/
theorem kanton_conversion_witness :
    kantonSplitCell (fillnaCell (.str "ZH, BE".data)) = .vlist ["ZH".data, "BE".data] ∧
      kantonSplitCell (fillnaCell (.str "  ".data)) = .vlist [] := by
  constructor
  · rw [kanton_conversion.1 "ZH, BE".data (by decide)]
    decide
  · rw [kanton_conversion.2.1 "  ".data (by decide)]

/-! ### The dead comma-replacement helper -/

theorem toNumericCell_not_str (v : Val) : (toNumericCell v).isStr = false := by
  cases v <;> simp only [toNumericCell, Val.isStr]
  case str s0 =>
    cases hp : parseNum s0 <;> rfl

theorem replace_commas_excel_id_aux (t : Table)
    (h : ∀ c ∈ t.cols, (c.dtype = .float64 ∨ c.dtype = .int64) →
      ∀ v ∈ c.cells, v.isStr = false) :
    replace_commas_with_dots_excel t = t := by
  unfold replace_commas_with_dots_excel
  cases t with
  | mk cols =>
      congr 1
      apply list_map_id_of_forall
      intro c hc
      unfold excelCol
      by_cases hd : c.dtype = .float64 ∨ c.dtype = .int64
      · rw [if_pos hd]
        have hcells : c.cells.map excelCommaCell = c.cells := by
          apply list_map_id_of_forall
          intro v hv
          cases v with
          | str s => exact absurd (h c hc hd (.str s) hv) (by simp [Val.isStr])
          | _ => rfl
        rw [hcells]
      · rw [if_neg hd]

theorem staged_no_str (t : Table)
    (h : ∀ c ∈ t.cols, (c.dtype = .float64 ∨ c.dtype = .int64) →
      ∀ v ∈ c.cells, v.isStr = false) :
    ∀ c ∈ (kantonStep (toNumericStep t)).cols,
      (c.dtype = .float64 ∨ c.dtype = .int64) → ∀ v ∈ c.cells, v.isStr = false := by
  intro c' hc' hd v hv
  unfold kantonStep toNumericStep at hc'
  simp only [List.map_map, List.mem_map, Function.comp, kantonCol, numCol] at hc'
  rcases hc' with ⟨c, hc, hceq⟩
  by_cases hnum : c.name ∈ numeric_columns
  · have hkan : ¬(c.name = "Kanton") := by
      intro hk
      rw [hk] at hnum
      revert hnum
      decide
    simp [hnum, hkan] at hceq
    rw [← hceq] at hv
    simp only [List.mem_map] at hv
    rcases hv with ⟨v0, _, hv0⟩
    rw [← hv0]
    exact toNumericCell_not_str v0
  · rw [if_neg hnum] at hceq
    by_cases hkan : c.name = "Kanton"
    · rw [if_pos hkan] at hceq
      rw [← hceq] at hd
      exact absurd hd (by simp)
    · rw [if_neg hkan] at hceq
      rw [← hceq] at hd hv
      exact h c hc hd v hv

/-- C10: on every dtype-consistent dataframe (float64/int64 columns
hold no string cells, which pandas guarantees),
`replace_commas_with_dots_excel` returns its input unchanged — its cell
lambda fires only on string instances, which its dtype guard excludes —
and consequently the call at line 41 of `convert_to_geojson` leaves the
already-normalized frame unchanged, performing no comma-to-dot
replacement. -/
theorem replace_commas_with_dots_excel_identity (t : Table)
    (h : ∀ c ∈ t.cols, (c.dtype = .float64 ∨ c.dtype = .int64) →
      ∀ v ∈ c.cells, v.isStr = false) :
    replace_commas_with_dots_excel t = t ∧
      replace_commas_with_dots_excel (kantonStep (toNumericStep t))
        = kantonStep (toNumericStep t) :=
  ⟨replace_commas_excel_id_aux t h,
    replace_commas_excel_id_aux _ (staged_no_str t h)⟩

/-- Witness for C10 at a concrete dtyped document. -/
theorem replace_commas_with_dots_excel_identity_witness :
    replace_commas_with_dots_excel tRound = tRound ∧
      replace_commas_with_dots_excel (kantonStep (toNumericStep tRound))
        = kantonStep (toNumericStep tRound) :=
  replace_commas_with_dots_excel_identity tRound (by decide)

/-! ### Record and frame machinery -/

theorem dfGet_append_not_mem {r : Record} {k : String} (h : k ∉ r.map Prod.fst)
    (tail : Record) : dfGet (r ++ tail) k = dfGet tail k := by
  induction r with
  | nil => rfl
  | cons p rest ih =>
      have hp : p.1 ≠ k := fun he => h (by simp [he])
      have hr : k ∉ rest.map Prod.fst := fun hm => h (by simp [hm])
      simp only [List.cons_append, dfGet, if_neg hp]
      exact ih hr

theorem dfGet_setKey (r : Record) (k : String) (v : Val) :
    dfGet (setKey r k v) k = v := by
  unfold setKey
  by_cases hmem : k ∈ r.map Prod.fst
  · rw [if_pos hmem]
    induction r with
    | nil => simp at hmem
    | cons p rest ih =>
        by_cases hp : p.1 = k
        · simp [dfGet, hp]
        · have hm : k ∈ rest.map Prod.fst := by
            rcases List.mem_map.mp hmem with ⟨q, hq, hqe⟩
            rcases List.mem_cons.mp hq with rfl | hq2
            · exact absurd hqe hp
            · exact List.mem_map.mpr ⟨q, hq2, hqe⟩
          simp only [List.map_cons, dfGet, if_neg hp]
          exact ih hm
  · rw [if_neg hmem, dfGet_append_not_mem hmem]
    simp [dfGet]

theorem dfGet_map_setkey {r : Record} {k : String} {v : Val} {c : String} (hck : c ≠ k) :
    dfGet (r.map fun p => if p.1 = k then (k, v) else p) c = dfGet r c := by
  induction r with
  | nil => rfl
  | cons p rest ih =>
      by_cases hp : p.1 = k
      · have h1 : ¬(k = c) := fun he => hck he.symm
        have h2 : ¬(p.1 = c) := by rw [hp]; exact h1
        simp only [List.map_cons, if_pos hp, dfGet, if_neg h1, if_neg h2]
        exact ih
      · simp only [List.map_cons, if_neg hp, dfGet]
        by_cases hpc : p.1 = c
        · rw [if_pos hpc, if_pos hpc]
        · rw [if_neg hpc, if_neg hpc]
          exact ih

theorem dfGet_append_single_ne {r : Record} {k : String} {v : Val} {c : String}
    (hck : c ≠ k) : dfGet (r ++ [(k, v)]) c = dfGet r c := by
  induction r with
  | nil =>
      simp only [List.nil_append, dfGet]
      rw [if_neg (show ¬(k = c) from fun he => hck he.symm)]
  | cons p rest ih =>
      by_cases hpc : p.1 = c
      · simp only [List.cons_append, dfGet, if_pos hpc]
      · simp only [List.cons_append, dfGet, if_neg hpc]
        exact ih

theorem dfGet_setKey_ne (r : Record) (k : String) (v : Val) (c : String) (hck : c ≠ k) :
    dfGet (setKey r k v) c = dfGet r c := by
  unfold setKey
  by_cases hmem : k ∈ r.map Prod.fst
  · rw [if_pos hmem]
    exact dfGet_map_setkey hck
  · rw [if_neg hmem]
    exact dfGet_append_single_ne hck

/-- Looking up a column's name in the assoc list built from the columns
recovers that column's entry (given distinct names). -/
theorem dfGet_assoc_map (cols : List Col) (f : Col → Val) {c : Col} (hc : c ∈ cols)
    (hnd : (cols.map Col.name).Nodup) :
    dfGet (cols.map fun x => (x.name, f x)) c.name = f c := by
  induction cols with
  | nil => exact absurd hc (List.not_mem_nil c)
  | cons x rest ih =>
      rcases List.mem_cons.mp hc with rfl | hmem
      · simp [dfGet]
      · have hx : x.name ≠ c.name := by
          intro he
          have h1 : c.name ∈ rest.map Col.name := List.mem_map.mpr ⟨c, hmem, rfl⟩
          rw [← he] at h1
          exact (List.nodup_cons.mp hnd).1 h1
        simp only [List.map_cons, dfGet, if_neg hx]
        exact ih hmem (List.nodup_cons.mp hnd).2

theorem mem_foldl_insertKey (ks : List String) (acc : List String) (k : String) :
    k ∈ ks.foldl insertKey acc ↔ k ∈ acc ∨ k ∈ ks := by
  induction ks generalizing acc with
  | nil => simp
  | cons k' ks' ih =>
      rw [List.foldl_cons, ih]
      unfold insertKey
      by_cases hk' : k' ∈ acc
      · rw [if_pos hk']
        constructor
        · rintro (h | h)
          · exact Or.inl h
          · exact Or.inr (List.mem_cons_of_mem _ h)
        · rintro (h | h)
          · exact Or.inl h
          · rcases List.mem_cons.mp h with rfl | h2
            · exact Or.inl hk'
            · exact Or.inr h2
      · rw [if_neg hk']
        constructor
        · rintro (h | h)
          · rcases List.mem_append.mp h with h1 | h1
            · exact Or.inl h1
            · simp only [List.mem_singleton] at h1
              exact Or.inr (by rw [h1]; exact List.mem_cons_self _ _)
          · exact Or.inr (List.mem_cons_of_mem _ h)
        · rintro (h | h)
          · exact Or.inl (List.mem_append.mpr (Or.inl h))
          · rcases List.mem_cons.mp h with rfl | h2
            · exact Or.inl (List.mem_append.mpr (Or.inr (by simp)))
            · exact Or.inr h2

theorem mem_dfColumns (recs : List Record) (k : String) :
    k ∈ dfColumns recs ↔ ∃ r ∈ recs, k ∈ r.map Prod.fst := by
  unfold dfColumns
  suffices h : ∀ acc, k ∈ recs.foldl (fun acc r => (r.map Prod.fst).foldl insertKey acc) acc
      ↔ k ∈ acc ∨ ∃ r ∈ recs, k ∈ r.map Prod.fst by
    rw [h []]
    simp
  induction recs with
  | nil => simp
  | cons r rest ih =>
      intro acc
      rw [List.foldl_cons, ih, mem_foldl_insertKey]
      constructor
      · rintro ((h | h) | h)
        · exact Or.inl h
        · exact Or.inr ⟨r, List.mem_cons_self _ _, h⟩
        · rcases h with ⟨r2, hr2, hk2⟩
          exact Or.inr ⟨r2, List.mem_cons_of_mem _ hr2, hk2⟩
      · rintro (h | ⟨r2, hr2, hk2⟩)
        · exact Or.inl (Or.inl h)
        · rcases List.mem_cons.mp hr2 with rfl | h2
          · exact Or.inl (Or.inr hk2)
          · exact Or.inr ⟨r2, h2, hk2⟩

theorem nodup_foldl_insertKey (ks : List String) (acc : List String) (h : acc.Nodup) :
    (ks.foldl insertKey acc).Nodup := by
  induction ks generalizing acc with
  | nil => exact h
  | cons k ks' ih =>
      rw [List.foldl_cons]
      apply ih
      unfold insertKey
      by_cases hk : k ∈ acc
      · rw [if_pos hk]; exact h
      · rw [if_neg hk]
        exact List.Nodup.append h (List.nodup_singleton k)
          (by simpa [List.disjoint_singleton] using hk)

theorem dfColumns_nodup (recs : List Record) : (dfColumns recs).Nodup := by
  unfold dfColumns
  suffices h : ∀ acc : List String, acc.Nodup →
      (recs.foldl (fun acc r => (r.map Prod.fst).foldl insertKey acc) acc).Nodup from
    h [] List.nodup_nil
  induction recs with
  | nil => exact fun acc h => h
  | cons r rest ih =>
      intro acc hacc
      rw [List.foldl_cons]
      exact ih _ (nodup_foldl_insertKey _ _ hacc)

theorem foldl_insertKey_fresh {K : List String} (hnd : K.Nodup) :
    ∀ acc, (∀ k ∈ K, k ∉ acc) → K.foldl insertKey acc = acc ++ K := by
  induction K with
  | nil => intro acc _; simp
  | cons k K' ih =>
      intro acc hfresh
      rw [List.foldl_cons]
      have hk : k ∉ acc := hfresh k (List.mem_cons_self _ _)
      have : insertKey acc k = acc ++ [k] := by unfold insertKey; rw [if_neg hk]
      rw [this, ih (List.nodup_cons.mp hnd).2]
      · simp
      · intro k' hk'
        intro hmem
        rcases List.mem_append.mp hmem with h1 | h1
        · exact hfresh k' (List.mem_cons_of_mem _ hk') h1
        · simp only [List.mem_singleton] at h1
          exact (List.nodup_cons.mp hnd).1 (h1 ▸ hk')

theorem foldl_insertKey_subset {ks acc : List String} (h : ∀ k ∈ ks, k ∈ acc) :
    ks.foldl insertKey acc = acc := by
  induction ks with
  | nil => rfl
  | cons k ks' ih =>
      rw [List.foldl_cons]
      have : insertKey acc k = acc := by
        unfold insertKey
        rw [if_pos (h k (List.mem_cons_self _ _))]
      rw [this]
      exact ih fun k' hk' => h k' (List.mem_cons_of_mem _ hk')

theorem foldl_uniform_keeps {K : List String} (rest : List Record)
    (hK : ∀ r ∈ rest, r.map Prod.fst = K) :
    rest.foldl (fun acc r => (r.map Prod.fst).foldl insertKey acc) K = K := by
  induction rest with
  | nil => rfl
  | cons r2 rest2 ih =>
      rw [List.foldl_cons, hK r2 (List.mem_cons_self _ _),
        foldl_insertKey_subset fun k hk => hk]
      exact ih fun r3 hr3 => hK r3 (List.mem_cons_of_mem _ hr3)

/-- Records with a common key list `K` produce exactly the columns `K`. -/
theorem dfColumns_uniform {recs : List Record} {K : List String} (hne : recs ≠ [])
    (hnd : K.Nodup) (hK : ∀ r ∈ recs, r.map Prod.fst = K) : dfColumns recs = K := by
  cases recs with
  | nil => exact absurd rfl hne
  | cons r rest =>
      unfold dfColumns
      rw [List.foldl_cons, hK r (List.mem_cons_self _ _)]
      rw [foldl_insertKey_fresh hnd [] (fun k _ => List.not_mem_nil k)]
      rw [List.nil_append]
      exact foldl_uniform_keeps rest fun r3 hr3 => hK r3 (List.mem_cons_of_mem _ hr3)

theorem zip_self_map (cols : List String) (g : String → Val) :
    cols.zip (cols.map g) = cols.map fun k => (k, g k) := by
  have h := List.zip_map' (fun k : String => k) g cols
  simpa using h

theorem frameMapCols_mapform {α : Type} (cols : List String) (recs : List α)
    (G : α → String → Val) (p : String → Bool) (f : Val → Val) :
    frameMapCols ⟨cols, recs.map fun r => cols.map (G r)⟩ p f
      = ⟨cols, recs.map fun r => cols.map fun k => if p k then f (G r k) else G r k⟩ := by
  unfold frameMapCols
  congr 1
  rw [List.map_map]
  apply List.map_congr_left
  intro r _
  show ((cols.zip (cols.map (G r))).map fun cv => if p cv.1 then f cv.2 else cv.2) = _
  rw [zip_self_map, List.map_map]
  rfl

theorem rowCell_mapform {cols : List String} {g : String → Val} {c : String}
    (hc : c ∈ cols) (rows : List (List Val)) :
    rowCell ⟨cols, rows⟩ (cols.map g) c = g c := by
  obtain ⟨j, hj⟩ := colIdx_isSome_of_mem hc
  unfold rowCell
  rw [hj]
  exact getD_map_of_colIdx hj

theorem frameCol_mapform {α : Type} (cols : List String) (recs : List α)
    (G : α → String → Val) {c : String} (hc : c ∈ cols) (rows : List (List Val))
    (hrows : rows = recs.map fun r => cols.map (G r)) :
    frameCol ⟨cols, rows⟩ c = recs.map fun r => G r c := by
  obtain ⟨j, hj⟩ := colIdx_isSome_of_mem hc
  unfold frameCol
  rw [hj]
  show rows.map (fun r => r.getD j Val.nan) = _
  rw [hrows, List.map_map]
  apply List.map_congr_left
  intro r _
  exact getD_map_of_colIdx hj

theorem map_set_ite {cols : List String} {c : String} {j : ℕ} (hnd : cols.Nodup)
    (hj : colIdx cols c = some j) (g : String → Val) (v : Val) :
    (cols.map g).set j v = cols.map fun k => if k = c then v else g k := by
  induction cols generalizing j with
  | nil => simp [colIdx] at hj
  | cons x xs ih =>
      unfold colIdx at hj
      by_cases hx : x = c
      · rw [if_pos hx] at hj
        injection hj with h0
        subst h0
        subst hx
        simp only [List.map_cons, List.set]
        have htail : List.map (fun k => if k = x then v else g k) xs = List.map g xs := by
          apply List.map_congr_left
          intro k hk
          rw [if_neg]
          intro hke
          subst hke
          exact (List.nodup_cons.mp hnd).1 hk
        rw [htail, if_pos trivial]
      · rw [if_neg hx] at hj
        rcases Option.map_eq_some'.mp hj with ⟨j', hj', rfl⟩
        simp only [List.map_cons, List.set]
        rw [ih (List.nodup_cons.mp hnd).2 hj']
        congr 1
        rw [if_neg hx]

theorem addCol_mapform_new {α : Type} (cols : List String) (recs : List α)
    (G : α → String → Val) (c : String) (hc : c ∉ cols) (V : α → Val) :
    addCol ⟨cols, recs.map fun r => cols.map (G r)⟩ c (recs.map V)
      = ⟨cols ++ [c], recs.map fun r => (cols ++ [c]).map
          fun k => if k = c then V r else G r k⟩ := by
  unfold addCol
  rw [colIdx_none_of_not_mem hc]
  show Frame.mk _ _ = _
  congr 1
  rw [List.zip_map', List.map_map]
  apply List.map_congr_left
  intro r _
  show cols.map (G r) ++ [V r] = _
  rw [List.map_append]
  congr 1
  · apply List.map_congr_left
    intro k hk
    rw [if_neg]
    intro hke
    subst hke
    exact hc hk
  · simp

theorem addCol_mapform_mem {α : Type} (cols : List String) (recs : List α)
    (G : α → String → Val) (c : String) {j : ℕ} (hnd : cols.Nodup)
    (hj : colIdx cols c = some j) (V : α → Val) :
    addCol ⟨cols, recs.map fun r => cols.map (G r)⟩ c (recs.map V)
      = ⟨cols, recs.map fun r => cols.map fun k => if k = c then V r else G r k⟩ := by
  unfold addCol
  rw [hj]
  show Frame.mk _ _ = _
  congr 1
  rw [List.zip_map', List.map_map]
  apply List.map_congr_left
  intro r _
  exact map_set_ite hnd hj (G r) (V r)

theorem exceptMapM_map {α β γ : Type} (f : β → Except Err γ) (g : α → β) (l : List α) :
    exceptMapM f (l.map g) = exceptMapM (fun a => f (g a)) l := by
  induction l with
  | nil => rfl
  | cons a rest ih =>
      simp only [List.map_cons, exceptMapM, ih]

/-! ### The reverse conversion on point features -/

theorem setKey_key_mem (r : Record) (k : String) (v : Val) :
    k ∈ (setKey r k v).map Prod.fst := by
  unfold setKey
  by_cases hm : k ∈ r.map Prod.fst
  · rw [if_pos hm]
    rcases List.mem_map.mp hm with ⟨p, hp, hpe⟩
    apply List.mem_map.mpr
    refine ⟨(k, v), List.mem_map.mpr ⟨p, hp, ?_⟩, rfl⟩
    rw [if_pos hpe]
  · rw [if_neg hm]
    simp

theorem featRecord_ok {f : Feature} (h : f.geometry.isSome) :
    featRecord f = .ok (featRecordOk f) := by
  cases hg : f.geometry with
  | none => rw [hg] at h; exact absurd h (by simp)
  | some g => simp [featRecord, shapeE, featRecordOk, featGeom, hg]

theorem geoCell0_geometry (f : Feature) : geoCell0 f "geometry" = .geom (featGeom f) :=
  dfGet_setKey _ _ _

theorem geoCell2_geometry (f : Feature) : geoCell2 f "geometry" = .geom (featGeom f) := by
  unfold geoCell2
  rw [if_neg (by decide)]
  unfold geoCell1
  rw [if_neg (by decide)]
  exact geoCell0_geometry f

theorem geoCell3_geometry (f : Feature) : geoCell3 f "geometry" = .geom (featGeom f) := by
  unfold geoCell3
  rw [if_neg (by decide)]
  exact geoCell2_geometry f

/-- `addCol` on a map-form frame yields a map-form frame with the new
cell at the (possibly fresh) column. -/
theorem addCol_char {α : Type} (K : List String) (hnd : K.Nodup) (recs : List α)
    (G : α → String → Val) (c : String) (V : α → Val) :
    ∃ CL : List String,
      addCol ⟨K, recs.map fun x => K.map (G x)⟩ c (recs.map V)
          = ⟨CL, recs.map fun x => CL.map fun k => if k = c then V x else G x k⟩ ∧
        (∀ k ∈ K, k ∈ CL) ∧ c ∈ CL ∧ CL.Nodup ∧ (∀ k ∈ CL, k = c ∨ k ∈ K) := by
  by_cases hc : c ∈ K
  · obtain ⟨j, hj⟩ := colIdx_isSome_of_mem hc
    exact ⟨K, addCol_mapform_mem K recs G c hnd hj V,
      fun k hk => hk, hc, hnd, fun k hk => Or.inr hk⟩
  · refine ⟨K ++ [c], addCol_mapform_new K recs G c hc V, ?_, ?_, ?_, ?_⟩
    · exact fun k hk => List.mem_append.mpr (Or.inl hk)
    · exact List.mem_append.mpr (Or.inr (by simp))
    · exact List.Nodup.append hnd (List.nodup_singleton c)
        (by simpa [List.disjoint_singleton] using hc)
    · intro k hk
      rcases List.mem_append.mp hk with h1 | h1
      · exact Or.inr h1
      · simp only [List.mem_singleton] at h1
        exact Or.inl h1

/-- On a nonempty collection of point features the reverse conversion
succeeds and its frame is column-name-indexed by `geoCell`. -/
theorem convert_geo_mapform (fs : List Feature) (hne : fs ≠ [])
    (hpt : ∀ f ∈ fs, ∃ x y, f.geometry = some (.point x y)) :
    ∃ C2 : List String,
      convert_geojson_to_excel ⟨some fs⟩
          = .ok ⟨C2, fs.map fun f => C2.map (geoCell f)⟩ ∧
        (∀ k ∈ dfColumns (fs.map featRecordOk), k ∈ C2) ∧
        "lat" ∈ C2 ∧ "lon" ∈ C2 ∧ C2.Nodup ∧
        (∀ k ∈ C2, k = "lat" ∨ k = "lon" ∨ k ∈ dfColumns (fs.map featRecordOk)) := by
  have hrecs : exceptMapM featRecord fs = .ok (fs.map featRecordOk) := by
    apply exceptMapM_ok
    intro f hf
    rcases hpt f hf with ⟨x, y, hg⟩
    exact featRecord_ok (by rw [hg]; rfl)
  have hK := dfColumns_nodup (fs.map featRecordOk)
  set K := dfColumns (fs.map featRecordOk) with hKdef
  have hgeomK : "geometry" ∈ K := by
    rw [hKdef, mem_dfColumns]
    cases fs with
    | nil => exact absurd rfl hne
    | cons f0 rest =>
        exact ⟨featRecordOk f0, by simp, setKey_key_mem _ _ _⟩
  have hfg : ∀ f ∈ fs, featGeom f = .point (featX f) (featY f) := by
    intro f hf
    rcases hpt f hf with ⟨x, y, hg⟩
    simp [featGeom, featX, featY, hg]
  -- build the frame
  have hgdf : mkGdf (fs.map featRecordOk)
      = .ok ⟨K, fs.map fun f => K.map (geoCell0 f)⟩ := by
    unfold mkGdf
    rw [← hKdef, if_pos hgeomK]
    unfold mkFrameRows
    rw [List.map_map]
    rfl
  have hjoin : joinKantonStep ⟨K, fs.map fun f => K.map (geoCell0 f)⟩
      = ⟨K, fs.map fun f => K.map (geoCell1 f)⟩ := by
    unfold joinKantonStep
    rw [frameMapCols_mapform]
    congr 1
    apply List.map_congr_left
    intro f _
    apply List.map_congr_left
    intro k _
    simp [geoCell1]
  have hrepl : replace_commas_with_dots ⟨K, fs.map fun f => K.map (geoCell1 f)⟩
        numeric_columns
      = ⟨K, fs.map fun f => K.map (geoCell2 f)⟩ := by
    unfold replace_commas_with_dots
    rw [frameMapCols_mapform]
    congr 1
    apply List.map_congr_left
    intro f _
    apply List.map_congr_left
    intro k _
    simp [geoCell2]
  have hlats : exceptMapM
      (fun r => latCell (rowCell ⟨K, fs.map fun f => K.map (geoCell2 f)⟩ r "geometry"))
      ((⟨K, fs.map fun f => K.map (geoCell2 f)⟩ : Frame).rows)
      = .ok (fs.map fun f => Val.num (featY f)) := by
    show exceptMapM _ ((fs.map fun f => K.map (geoCell2 f))) = _
    rw [exceptMapM_map]
    apply exceptMapM_ok
    intro f hf
    rw [rowCell_mapform hgeomK, geoCell2_geometry, hfg f hf]
    rfl
  obtain ⟨CL, haddlat, hKCL, hlatCL, hndCL, hcharCL⟩ :=
    addCol_char K hK fs geoCell2 "lat" (fun f => Val.num (featY f))
  have hcell3 : ∀ f : Feature,
      (fun k => if k = "lat" then Val.num (featY f) else geoCell2 f k) = geoCell3 f := by
    intro f
    funext k
    rfl
  have hgeomCL : "geometry" ∈ CL := hKCL _ hgeomK
  have hlons : exceptMapM
      (fun r => lonCell (rowCell ⟨CL, fs.map fun f => CL.map (geoCell3 f)⟩ r "geometry"))
      ((⟨CL, fs.map fun f => CL.map (geoCell3 f)⟩ : Frame).rows)
      = .ok (fs.map fun f => Val.num (featX f)) := by
    show exceptMapM _ ((fs.map fun f => CL.map (geoCell3 f))) = _
    rw [exceptMapM_map]
    apply exceptMapM_ok
    intro f hf
    rw [rowCell_mapform hgeomCL, geoCell3_geometry, hfg f hf]
    rfl
  obtain ⟨CL2, haddlon, hCLCL2, hlonCL2, hndCL2, hcharCL2⟩ :=
    addCol_char CL hndCL fs geoCell3 "lon" (fun f => Val.num (featX f))
  have hcell4 : ∀ f : Feature,
      (fun k => if k = "lon" then Val.num (featX f) else geoCell3 f k) = geoCell4 f := by
    intro f
    funext k
    rfl
  have h1 : addCol ⟨K, fs.map fun f => K.map (geoCell2 f)⟩ "lat"
      (fs.map fun f => Val.num (featY f)) = ⟨CL, fs.map fun f => CL.map (geoCell3 f)⟩ := by
    rw [haddlat]
    congr 1
  have h2 : addCol ⟨CL, fs.map fun f => CL.map (geoCell3 f)⟩ "lon"
      (fs.map fun f => Val.num (featX f))
      = ⟨CL2, fs.map fun f => CL2.map (geoCell4 f)⟩ := by
    rw [haddlon]
    congr 1
  have hlatlon : latlonStep ⟨K, fs.map fun f => K.map (geoCell2 f)⟩
      = .ok ⟨CL2, fs.map fun f => CL2.map (geoCell4 f)⟩ := by
    unfold latlonStep
    simp only [hlats, h1, hlons, h2]
  have hfinal : toNumericFrameStep ⟨CL2, fs.map fun f => CL2.map (geoCell4 f)⟩
      = ⟨CL2, fs.map fun f => CL2.map (geoCell f)⟩ := by
    unfold toNumericFrameStep
    rw [frameMapCols_mapform]
    congr 1
    apply List.map_congr_left
    intro f _
    apply List.map_congr_left
    intro k _
    simp [geoCell]
  refine ⟨CL2, ?_, fun k hk => hCLCL2 _ (hKCL _ hk), hCLCL2 _ hlatCL, hlonCL2, hndCL2, ?_⟩
  · unfold convert_geojson_to_excel
    simp only [hrecs, hgdf, hjoin, hrepl, hlatlon, hfinal]
  · intro k hk
    rcases hcharCL2 k hk with h1 | h1
    · exact Or.inr (Or.inl h1)
    · rcases hcharCL k h1 with h2 | h2
      · exact Or.inl h2
      · exact Or.inr (Or.inr h2)

/-! ### The forward conversion: staged columns -/

theorem normalizeSteps_cols (t : Table) :
    (normalizeSteps t).cols
      = t.cols.map fun c => fillnaCol (excelCol (kantonCol (numCol c))) := by
  unfold normalizeSteps fillnaStep replace_commas_with_dots_excel kantonStep toNumericStep
  simp [List.map_map]

theorem stageCol_name (c : Col) :
    (fillnaCol (excelCol (kantonCol (numCol c)))).name = c.name := by
  rw [fillnaCol_name, excelCol_name, kantonCol_name, numCol_name]

theorem numeric_columns_facts :
    ∀ n ∈ numeric_columns, n ≠ "Kanton" ∧ n ≠ "geometry" ∧ n ≠ "lat" ∧ n ≠ "lon" := by
  decide

/-- A designated numeric column whose cells are all numbers is staged to
itself with a float64 dtype. -/
theorem stage_numeric (c : Col) (hnum : c.name ∈ numeric_columns)
    (hcells : ∀ v ∈ c.cells, ∃ q, v = .num q) :
    fillnaCol (excelCol (kantonCol (numCol c)))
      = ⟨c.name, .float64, c.cells⟩ := by
  have hkan : c.name ≠ "Kanton" := (numeric_columns_facts c.name hnum).1
  unfold numCol
  rw [if_pos hnum]
  unfold kantonCol
  rw [if_neg hkan]
  unfold excelCol
  rw [if_pos (Or.inl rfl)]
  unfold fillnaCol
  simp only [List.map_map]
  congr 1
  apply list_map_id_of_forall
  intro v hv
  rcases hcells v hv with ⟨q, rfl⟩
  rfl

/-- The `Kanton` column of string cells is staged to the split lists. -/
theorem stage_kanton (c : Col) (hkan : c.name = "Kanton") :
    fillnaCol (excelCol (kantonCol (numCol c)))
      = ⟨c.name, .obj, c.cells.map fun v => kantonSplitCell (fillnaCell v)⟩ := by
  have hnum : c.name ∉ numeric_columns := by
    rw [hkan]
    decide
  unfold numCol
  rw [if_neg hnum]
  unfold kantonCol
  rw [if_pos hkan]
  unfold excelCol
  rw [if_neg (by simp)]
  unfold fillnaCol
  simp only [List.map_map]
  congr 1
  apply List.map_congr_left
  intro v _
  show fillnaCell (kantonSplitCell (fillnaCell v)) = kantonSplitCell (fillnaCell v)
  cases hv : fillnaCell v with
  | str s =>
      unfold kantonSplitCell
      by_cases hs : pyStrip s ≠ [] <;> simp [hs, fillnaCell]
  | _ => rfl

/-- An undesignated column of string/number cells whose dtype guard
excludes strings is staged to itself. -/
theorem stage_other (c : Col) (hnum : c.name ∉ numeric_columns) (hkan : c.name ≠ "Kanton")
    (hcells : ∀ v ∈ c.cells, (∃ s, v = .str s) ∨ (∃ q, v = .num q))
    (hdty : (c.dtype = .float64 ∨ c.dtype = .int64) → ∀ v ∈ c.cells, v.isStr = false) :
    fillnaCol (excelCol (kantonCol (numCol c))) = c := by
  unfold numCol
  rw [if_neg hnum]
  unfold kantonCol
  rw [if_neg hkan]
  unfold excelCol
  by_cases hd : c.dtype = .float64 ∨ c.dtype = .int64
  · rw [if_pos hd]
    unfold fillnaCol
    simp only [List.map_map]
    show Col.mk c.name c.dtype _ = c
    have : c.cells.map (fillnaCell ∘ excelCommaCell) = c.cells := by
      apply list_map_id_of_forall
      intro v hv
      rcases hcells v hv with ⟨s, rfl⟩ | ⟨q, rfl⟩
      · exact absurd (hdty hd _ hv) (by simp [Val.isStr])
      · rfl
    rw [this]
  · rw [if_neg hd]
    unfold fillnaCol
    show Col.mk c.name c.dtype _ = c
    have : c.cells.map fillnaCell = c.cells := by
      apply list_map_id_of_forall
      intro v hv
      rcases hcells v hv with ⟨s, rfl⟩ | ⟨q, rfl⟩ <;> rfl
    rw [this]

theorem find?_of_mem_nodup {cols : List Col} (hnd : (cols.map Col.name).Nodup) {c : Col}
    (hc : c ∈ cols) : (cols.find? fun x => x.name == c.name) = some c := by
  induction cols with
  | nil => exact absurd hc (List.not_mem_nil c)
  | cons x rest ih =>
      rcases List.mem_cons.mp hc with rfl | hmem
      · rw [List.find?_cons_of_pos _ (by simp)]
      · have hx : x.name ≠ c.name := by
          intro he
          have h1 : c.name ∈ rest.map Col.name := List.mem_map.mpr ⟨c, hmem, rfl⟩
          rw [← he] at h1
          exact (List.nodup_cons.mp hnd).1 h1
        rw [List.find?_cons_of_neg _ (by simp [hx])]
        exact ih (List.nodup_cons.mp hnd).2 hmem

theorem find?_name_map (cols : List Col) (f : Col → Col)
    (hf : ∀ c, (f c).name = c.name) (n : String) :
    ((cols.map f).find? fun c => c.name == n) = (cols.find? fun c => c.name == n).map f := by
  induction cols with
  | nil => rfl
  | cons x rest ih =>
      rw [List.map_cons]
      by_cases hx : x.name = n
      · rw [List.find?_cons_of_pos _ (by simp [hf, hx]),
          List.find?_cons_of_pos _ (by simp [hx])]
        rfl
      · rw [List.find?_cons_of_neg _ (by simp [hf, hx]),
          List.find?_cons_of_neg _ (by simp [hx])]
        exact ih

theorem colCells_of_mem {t : Table} (hnd : t.names.Nodup) {c : Col} (hc : c ∈ t.cols) :
    colCells t c.name = c.cells := by
  unfold colCells
  rw [find?_of_mem_nodup hnd hc]

theorem colCells_normalizeSteps {t : Table} (hnd : t.names.Nodup) {c : Col}
    (hc : c ∈ t.cols) :
    colCells (normalizeSteps t) c.name
      = (fillnaCol (excelCol (kantonCol (numCol c)))).cells := by
  unfold colCells
  rw [normalizeSteps_cols, find?_name_map _ _ stageCol_name, find?_of_mem_nodup hnd hc,
    Option.map_some']

/-- On a table whose `geometry` column holds parseable WKT strings in
an object-dtype column, `convert_to_geojson` succeeds, producing one
feature per row. -/
theorem convert_forward_ok (t : Table) (hnd : t.names.Nodup)
    {cg : Col} (hcg : cg ∈ t.cols) (hcgname : cg.name = "geometry")
    (hdt : cg.dtype = .obj)
    (hcells : ∀ v ∈ cg.cells, ∃ s g, v = .str s ∧ parseWKT s = some g) :
    convert_to_geojson t
      = .ok ⟨some (featuresOf (normalizeSteps t) (cg.cells.map wktGeomOf))⟩ := by
  have hstage : fillnaCol (excelCol (kantonCol (numCol cg))) = cg := by
    apply stage_other
    · rw [hcgname]; decide
    · rw [hcgname]; decide
    · intro v hv
      rcases hcells v hv with ⟨s, g, rfl, _⟩
      exact Or.inl ⟨s, rfl⟩
    · intro hd
      rw [hdt] at hd
      rcases hd with hd | hd <;> exact absurd hd (by decide)
  have hcol : colCells (normalizeSteps t) "geometry" = cg.cells := by
    rw [← hcgname, colCells_normalizeSteps hnd hcg, hstage]
  have hmem : "geometry" ∈ (normalizeSteps t).names := by
    rw [names_normalizeSteps]
    rw [← hcgname]
    exact List.mem_map.mpr ⟨cg, hcg, rfl⟩
  have hmapm : exceptMapM fromWktCell (colCells (normalizeSteps t) "geometry")
      = .ok (cg.cells.map wktGeomOf) := by
    rw [hcol]
    apply exceptMapM_ok
    intro v hv
    rcases hcells v hv with ⟨s, g, rfl, hp⟩
    simp [fromWktCell, hp, wktGeomOf]
  unfold convert_to_geojson
  rw [if_pos hmem]
  simp only [hmapm]

/-! ### Error paths of the reverse conversion -/

theorem geoCell_lat (f : Feature) : geoCell f "lat" = .num (featY f) := by
  unfold geoCell
  rw [if_neg (by decide)]
  unfold geoCell4
  rw [if_neg (by decide)]
  unfold geoCell3
  rw [if_pos rfl]

theorem geoCell_lon (f : Feature) : geoCell f "lon" = .num (featX f) := by
  unfold geoCell
  rw [if_neg (by decide)]
  unfold geoCell4
  rw [if_pos rfl]

theorem geo_null_geometry_error (fs : List Feature) (f : Feature)
    (hf : f ∈ fs) (hgeom : f.geometry = none) :
    convert_geojson_to_excel ⟨some fs⟩ = .error .typeError := by
  have herr : exceptMapM featRecord fs = .error .typeError := by
    apply exceptMapM_error_uniform
    · exact ⟨f, hf, by simp [featRecord, shapeE, hgeom]⟩
    · intro x _
      cases hgx : x.geometry with
      | none => exact Or.inl (by simp [featRecord, shapeE, hgx])
      | some g => exact Or.inr ⟨featRecordOk x, featRecord_ok (by simp [hgx])⟩
  unfold convert_geojson_to_excel
  simp only [herr]

theorem geo_nonpoint_geometry_error (fs : List Feature) (f0 : Feature)
    (hsome : ∀ f ∈ fs, f.geometry.isSome) (hf0 : f0 ∈ fs)
    (hnp : ∀ x y, f0.geometry ≠ some (.point x y)) :
    convert_geojson_to_excel ⟨some fs⟩ = .error .attributeError := by
  have hne : fs ≠ [] := fun h0 => by rw [h0] at hf0; exact absurd hf0 (List.not_mem_nil f0)
  have hrecs : exceptMapM featRecord fs = .ok (fs.map featRecordOk) :=
    exceptMapM_ok fun f hf => featRecord_ok (hsome f hf)
  have hK := dfColumns_nodup (fs.map featRecordOk)
  set K := dfColumns (fs.map featRecordOk) with hKdef
  have hgeomK : "geometry" ∈ K := by
    rw [hKdef, mem_dfColumns]
    exact ⟨featRecordOk f0, List.mem_map.mpr ⟨f0, hf0, rfl⟩, setKey_key_mem _ _ _⟩
  have hgdf : mkGdf (fs.map featRecordOk)
      = .ok ⟨K, fs.map fun f => K.map (geoCell0 f)⟩ := by
    unfold mkGdf
    rw [← hKdef, if_pos hgeomK]
    unfold mkFrameRows
    rw [List.map_map]
    rfl
  have hjoin : joinKantonStep ⟨K, fs.map fun f => K.map (geoCell0 f)⟩
      = ⟨K, fs.map fun f => K.map (geoCell1 f)⟩ := by
    unfold joinKantonStep
    rw [frameMapCols_mapform]
    congr 1
    apply List.map_congr_left
    intro f _
    apply List.map_congr_left
    intro k _
    simp [geoCell1]
  have hrepl : replace_commas_with_dots ⟨K, fs.map fun f => K.map (geoCell1 f)⟩
        numeric_columns
      = ⟨K, fs.map fun f => K.map (geoCell2 f)⟩ := by
    unfold replace_commas_with_dots
    rw [frameMapCols_mapform]
    congr 1
    apply List.map_congr_left
    intro f _
    apply List.map_congr_left
    intro k _
    simp [geoCell2]
  have herrlat : exceptMapM
      (fun r => latCell (rowCell ⟨K, fs.map fun f => K.map (geoCell2 f)⟩ r "geometry"))
      ((⟨K, fs.map fun f => K.map (geoCell2 f)⟩ : Frame).rows)
      = .error .attributeError := by
    show exceptMapM _ ((fs.map fun f => K.map (geoCell2 f))) = _
    rw [exceptMapM_map]
    apply exceptMapM_error_uniform
    · refine ⟨f0, hf0, ?_⟩
      rw [rowCell_mapform hgeomK, geoCell2_geometry]
      rcases hg0 : f0.geometry with _ | g0
      · have hs := hsome f0 hf0
        rw [hg0] at hs
        exact absurd hs (by simp)
      · have : featGeom f0 = g0 := by simp [featGeom, hg0]
        rw [this]
        cases g0 with
        | point x y => exact absurd hg0 (hnp x y)
        | line pts => rfl
        | polygon r => rfl
    · intro f _
      rw [rowCell_mapform hgeomK, geoCell2_geometry]
      cases featGeom f with
      | point x y => exact Or.inr ⟨_, rfl⟩
      | line pts => exact Or.inl rfl
      | polygon r => exact Or.inl rfl
  have herrll : latlonStep ⟨K, fs.map fun f => K.map (geoCell2 f)⟩
      = .error .attributeError := by
    unfold latlonStep
    simp only [herrlat]
  unfold convert_geojson_to_excel
  simp only [hrecs, hgdf, hjoin, hrepl, herrll]

/-- C5 (counterexample): a feature with a line geometry does not get
centroid-derived `lat`/`lon` columns; the conversion aborts with the
`AttributeError` that `.y` raises on a non-point geometry, producing no
rows. -/
theorem latlon_line_geometry_cex :
    convert_geojson_to_excel dLine = .error .attributeError := by decide

/-- C5 (amended): the reverse conversion derives `lat` from `.y` and
`lon` from `.x`, which exist only on point geometries.  On a nonempty
collection of point features it appends `lat = y` and `lon = x`
columns; a feature with a null geometry aborts the conversion with a
`TypeError` from `shape(None)`; a feature with a line or polygon
geometry aborts it with an `AttributeError` — in neither error case are
null columns produced. -/
theorem latlon_point_geometry :
    (∀ fs : List Feature, fs ≠ [] →
      (∀ f ∈ fs, ∃ x y, f.geometry = some (.point x y)) →
      ∃ fr, convert_geojson_to_excel ⟨some fs⟩ = .ok fr ∧
        frameCol fr "lat" = fs.map (fun f => Val.num (featY f)) ∧
        frameCol fr "lon" = fs.map (fun f => Val.num (featX f))) ∧
    (∀ (fs : List Feature) (f : Feature), f ∈ fs → f.geometry = none →
      convert_geojson_to_excel ⟨some fs⟩ = .error .typeError) ∧
    (∀ (fs : List Feature) (f0 : Feature), (∀ f ∈ fs, f.geometry.isSome) → f0 ∈ fs →
      (∀ x y, f0.geometry ≠ some (.point x y)) →
      convert_geojson_to_excel ⟨some fs⟩ = .error .attributeError) := by
  refine ⟨?_, geo_null_geometry_error, ?_⟩
  · intro fs hne hpt
    obtain ⟨C2, hconv, _, hlatC, hlonC, _, _⟩ := convert_geo_mapform fs hne hpt
    refine ⟨_, hconv, ?_, ?_⟩
    · rw [frameCol_mapform C2 fs geoCell hlatC _ rfl]
      apply List.map_congr_left
      intro f _
      exact geoCell_lat f
    · rw [frameCol_mapform C2 fs geoCell hlonC _ rfl]
      apply List.map_congr_left
      intro f _
      exact geoCell_lon f
  · intro fs f0 hsome hf0 hnp
    exact geo_nonpoint_geometry_error fs f0 hsome hf0 hnp

/-- Witness for C5 at a two-point collection. -/
theorem latlon_point_geometry_witness :
    ∃ fr, convert_geojson_to_excel dPoints = .ok fr ∧
      frameCol fr "lat" = [Val.num 47, Val.num 46] ∧
      frameCol fr "lon" = [Val.num (Rat.divInt 17 2), Val.num 7] := by
  obtain ⟨fr, hok, hlat, hlon⟩ := latlon_point_geometry.1
    [⟨[("Name", .jstr "a".data)], some (.point (Rat.divInt 17 2) 47)⟩,
     ⟨[("Name", .jstr "b".data)], some (.point 7 46)⟩]
    (by decide)
    (by
      intro f hf
      rcases List.mem_cons.mp hf with rfl | hf2
      · exact ⟨Rat.divInt 17 2, 47, rfl⟩
      · rcases List.mem_cons.mp hf2 with rfl | hf3
        · exact ⟨7, 46, rfl⟩
        · exact absurd hf3 (List.not_mem_nil _))
  refine ⟨fr, hok, ?_, ?_⟩
  · rw [hlat]
    decide
  · rw [hlon]
    decide

/-- C8: a numeric cell that fails parsing degrades to an empty/null
value for that cell only and never aborts: in the forward converter the
coerced NaN is filled to `""`; in the reverse converter the stringified
cell re-coerces to NaN; and each converter succeeds as a whole whenever
its geometry input is valid, with no condition at all on the numeric
cells. -/
theorem numeric_parse_failure_degrades :
    (∀ s : PyStr, parseNum s = none → fillnaCell (toNumericCell (.str s)) = .str []) ∧
    (∀ s : PyStr, parseNum (pyReplace ',' '.' s) = none →
      toNumericCell (replCell (.str s)) = .nan) ∧
    (∀ t : Table, t.names.Nodup →
      (∀ cg ∈ t.cols, cg.name = "geometry" → cg.dtype = .obj ∧
        ∀ v ∈ cg.cells, ∃ s g, v = .str s ∧ parseWKT s = some g) →
      "geometry" ∈ t.names →
      ∃ d, convert_to_geojson t = .ok d) ∧
    (∀ fs : List Feature, fs ≠ [] →
      (∀ f ∈ fs, ∃ x y, f.geometry = some (.point x y)) →
      ∃ fr, convert_geojson_to_excel ⟨some fs⟩ = .ok fr) := by
  refine ⟨?_, ?_, ?_, ?_⟩
  · intro s h
    simp [toNumericCell, h, fillnaCell]
  · intro s h
    show toNumericCell (.str (pyReplace ',' '.' (pyStrVal (.str s)))) = .nan
    simp [pyStrVal, toNumericCell, h]
  · intro t hnd hgcol hg
    rcases List.mem_map.mp hg with ⟨cg, hcg, hname⟩
    rcases hgcol cg hcg hname with ⟨hdt, hcells⟩
    exact ⟨_, convert_forward_ok t hnd hcg hname hdt hcells⟩
  · intro fs hne hpt
    obtain ⟨C2, hconv, _, _, _, _, _⟩ := convert_geo_mapform fs hne hpt
    exact ⟨_, hconv⟩

/-- Witness for C8: the unparseable cell `"abc"` in the `MW` column on
both sides of the conversion. -/
theorem numeric_parse_failure_degrades_witness :
    fillnaCell (toNumericCell (.str "abc".data)) = .str [] ∧
      (∃ d, convert_to_geojson tBadNum = .ok d) ∧
      (∃ fr, convert_geojson_to_excel dBadNum = .ok fr) := by
  refine ⟨numeric_parse_failure_degrades.1 "abc".data (by decide), ?_, ?_⟩
  · apply numeric_parse_failure_degrades.2.2.1 tBadNum (by decide)
    · intro cg hcg hname
      constructor
      · revert hname
        rcases List.mem_cons.mp hcg with rfl | h2
        · intro h
          exact absurd h (by decide)
        · rcases List.mem_cons.mp h2 with rfl | h3
          · intro _
            rfl
          · exact absurd h3 (List.not_mem_nil _)
      · intro v hv
        rcases List.mem_cons.mp hcg with rfl | h2
        · exact absurd hname (by decide)
        · rcases List.mem_cons.mp h2 with rfl | h3
          · simp only [List.mem_singleton] at hv
            subst hv
            exact ⟨"POINT (1 2)".data, .point 1 2, rfl, by decide⟩
          · exact absurd h3 (List.not_mem_nil _)
    · decide
  · apply numeric_parse_failure_degrades.2.2.2
      [⟨[("MW", .jstr "abc".data)], some (.point 1 2)⟩] (by decide)
    intro f hf
    simp only [List.mem_singleton] at hf
    subst hf
    exact ⟨1, 2, rfl⟩

/-! ### The round trip -/

theorem normalizeSteps_nrows (t : Table) : (normalizeSteps t).nrows = t.nrows := by
  unfold Table.nrows
  rw [normalizeSteps_cols]
  cases t.cols with
  | nil => rfl
  | cons c rest =>
      rw [List.map_cons]
      show (fillnaCol (excelCol (kantonCol (numCol c)))).cells.length = c.cells.length
      rw [fillnaCol_cells_length, excelCol_cells_length, kantonCol_cells_length,
        numCol_cells_length]

theorem setKey_append {r : Record} {k : String} (hnot : k ∉ r.map Prod.fst) (v : Val) :
    setKey r k v = r ++ [(k, v)] := by
  unfold setKey
  rw [if_neg hnot]

theorem kantonSplitCell_vlist (v : Val) : ∃ l, kantonSplitCell v = .vlist l := by
  cases v with
  | str s =>
      simp only [kantonSplitCell]
      by_cases hs : pyStrip s ≠ []
      · exact ⟨_, by rw [if_pos hs]⟩
      · exact ⟨_, by rw [if_neg hs]⟩
  | _ => exact ⟨_, rfl⟩

theorem getD_mem_of_lt {α : Type} (d : α) {l : List α} {i : ℕ} (h : i < l.length) :
    l.getD i d ∈ l :=
  List.get?_mem (get?_eq_some_getD d h)

theorem setKey_keys_mono {r : Record} {k k2 : String} {v : Val}
    (h : k2 ∈ r.map Prod.fst) : k2 ∈ (setKey r k v).map Prod.fst := by
  unfold setKey
  by_cases hm : k ∈ r.map Prod.fst
  · rw [if_pos hm, List.map_map]
    rcases List.mem_map.mp h with ⟨p, hp, hpk⟩
    by_cases hpk2 : p.1 = k
    · refine List.mem_map.mpr ⟨p, hp, ?_⟩
      show (if p.1 = k then ((k, v) : String × Val) else p).1 = k2
      rw [if_pos hpk2]
      show k = k2
      exact hpk2.symm.trans hpk
    · refine List.mem_map.mpr ⟨p, hp, ?_⟩
      show (if p.1 = k then ((k, v) : String × Val) else p).1 = k2
      rw [if_neg hpk2]
      exact hpk
  · rw [if_neg hm, List.map_append]
    exact List.mem_append_left _ h

theorem mem_filter_not_geometry {st : Table} {c : Col} (hc : c ∈ st.cols)
    (hgname : c.name ≠ "geometry") :
    c ∈ st.cols.filter fun x => x.name != "geometry" :=
  List.mem_filter.mpr ⟨hc, by simpa using hgname⟩

theorem geoCell0_featuresOf {st : Table} (hnd : (st.cols.map Col.name).Nodup)
    {c : Col} (hc : c ∈ st.cols) (hgname : c.name ≠ "geometry") (g : Option Geom) (i : ℕ) :
    geoCell0 ⟨(st.cols.filter fun x => x.name != "geometry").map fun x =>
        (x.name, valToJ (x.cells.getD i .nan)), g⟩ c.name
      = jToVal (valToJ (c.cells.getD i .nan)) := by
  unfold geoCell0 featRecordOk
  show dfGet (setKey (((st.cols.filter fun x => x.name != "geometry").map fun x =>
      (x.name, valToJ (x.cells.getD i .nan))).map fun p => (p.1, jToVal p.2)) "geometry" _)
      c.name = _
  rw [List.map_map]
  have hprops : ((st.cols.filter fun x => x.name != "geometry").map
        ((fun p : String × JVal => (p.1, jToVal p.2)) ∘ fun x =>
          (x.name, valToJ (x.cells.getD i .nan))))
      = (st.cols.filter fun x => x.name != "geometry").map fun x =>
        (x.name, jToVal (valToJ (x.cells.getD i .nan))) := rfl
  rw [hprops]
  have hnotmem : "geometry" ∉ ((st.cols.filter fun x => x.name != "geometry").map fun x =>
      (x.name, jToVal (valToJ (x.cells.getD i .nan)))).map Prod.fst := by
    rw [List.map_map]
    intro hmem
    rcases List.mem_map.mp hmem with ⟨x, hx, hxname⟩
    have hfx := (List.mem_filter.mp hx).2
    have : x.name = "geometry" := hxname
    simp [this] at hfx
  rw [setKey_append hnotmem, dfGet_append_single_ne hgname]
  have hsub : ((st.cols.filter fun x => x.name != "geometry").map Col.name).Sublist
      (st.cols.map Col.name) := (List.filter_sublist _).map Col.name
  exact dfGet_assoc_map _ (fun x => jToVal (valToJ (x.cells.getD i .nan)))
    (mem_filter_not_geometry hc hgname) (hnd.sublist hsub)

theorem featRecordOk_keys {st : Table} {c : Col} (hc : c ∈ st.cols)
    (hgname : c.name ≠ "geometry") (g : Option Geom) (i : ℕ) :
    c.name ∈ (featRecordOk ⟨(st.cols.filter fun x => x.name != "geometry").map fun x =>
        (x.name, valToJ (x.cells.getD i .nan)), g⟩).map Prod.fst := by
  unfold featRecordOk
  apply setKey_keys_mono
  rw [List.map_map, List.map_map]
  exact List.mem_map.mpr ⟨c, mem_filter_not_geometry hc hgname, rfl⟩

theorem geoCell_of_geoCell0_num {f : Feature} {k : String} {q : ℚ}
    (hk : k ∈ numeric_columns) (h0 : geoCell0 f k = .num q) (hdec : IsDecimal q) :
    geoCell f k = .num q := by
  have hfacts := numeric_columns_facts k hk
  unfold geoCell
  rw [if_pos hk]
  unfold geoCell4
  rw [if_neg hfacts.2.2.2]
  unfold geoCell3
  rw [if_neg hfacts.2.2.1]
  unfold geoCell2
  rw [if_pos hk]
  unfold geoCell1
  rw [if_neg hfacts.1, h0]
  show toNumericCell (.str (pyReplace ',' '.' (numToStr q))) = .num q
  rw [pyReplace_comma_numToStr]
  show (match parseNum (numToStr q) with | some q2 => Val.num q2 | none => Val.nan) = .num q
  rw [parseNum_numToStr hdec]

theorem geoCell_of_geoCell0_kanton {f : Feature} {v : Val}
    (h0 : geoCell0 f "Kanton" = v) : geoCell f "Kanton" = join_kanton v := by
  unfold geoCell
  rw [if_neg (by decide)]
  unfold geoCell4
  rw [if_neg (by decide)]
  unfold geoCell3
  rw [if_neg (by decide)]
  unfold geoCell2
  rw [if_neg (by decide)]
  unfold geoCell1
  rw [if_pos rfl, h0]

theorem geoCell_of_geoCell0_other {f : Feature} {k : String}
    (hknum : k ∉ numeric_columns) (hkan : k ≠ "Kanton") (hlat : k ≠ "lat")
    (hlon : k ≠ "lon") : geoCell f k = geoCell0 f k := by
  unfold geoCell
  rw [if_neg hknum]
  unfold geoCell4
  rw [if_neg hlon]
  unfold geoCell3
  rw [if_neg hlat]
  unfold geoCell2
  rw [if_neg hknum]
  unfold geoCell1
  rw [if_neg hkan]

/-- C2: for a table with a valid point-WKT `geometry` column of object
dtype, at least one row, no `lat`/`lon` columns, designated numeric
columns holding exactly representable decimal numbers, a `Kanton`
column whose strings survive the split/join cycle, and remaining
columns holding strings or numbers with no string cells under a
float64/int64 dtype, the tabular → geo → tabular round trip preserves
every non-geometry column and derives `lat`/`lon` from the point
coordinates (y and x respectively). -/
theorem roundtrip_preserves_properties (t : Table) (cg : Col)
    (hnd : t.names.Nodup)
    (hlen : ∀ c ∈ t.cols, c.cells.length = t.nrows)
    (hpos : 0 < t.nrows)
    (hlat0 : "lat" ∉ t.names) (hlon0 : "lon" ∉ t.names)
    (hcg : cg ∈ t.cols) (hcgname : cg.name = "geometry") (hcgdt : cg.dtype = .obj)
    (hgcells : ∀ v ∈ cg.cells, ∃ s x y, v = .str s ∧ parseWKT s = some (.point x y))
    (hnums : ∀ c ∈ t.cols, c.name ∈ numeric_columns →
      ∀ v ∈ c.cells, ∃ q, v = .num q ∧ IsDecimal q)
    (hkan : ∀ c ∈ t.cols, c.name = "Kanton" →
      ∀ v ∈ c.cells, ∃ s, v = .str s ∧ join_kanton (kantonSplitCell (.str s)) = .str s)
    (hoth : ∀ c ∈ t.cols, c.name ∉ numeric_columns → c.name ≠ "Kanton" →
      c.name ≠ "geometry" →
      (∀ v ∈ c.cells, (∃ s, v = .str s) ∨ (∃ q, v = .num q)) ∧
      ((c.dtype = .float64 ∨ c.dtype = .int64) → ∀ v ∈ c.cells, v.isStr = false)) :
    ∃ fr, roundtrip t = .ok fr ∧
      (∀ c ∈ t.cols, c.name ≠ "geometry" → frameCol fr c.name = c.cells) ∧
      frameCol fr "lat" = cg.cells.map (fun v => .num (wktY v)) ∧
      frameCol fr "lon" = cg.cells.map (fun v => .num (wktX v)) := by
  have hstnames : (normalizeSteps t).names = t.names := names_normalizeSteps t
  have hndst : ((normalizeSteps t).cols.map Col.name).Nodup := by
    show (normalizeSteps t).names.Nodup
    rw [hstnames]
    exact hnd
  have hn : (normalizeSteps t).nrows = t.nrows := normalizeSteps_nrows t
  have hcglen : cg.cells.length = t.nrows := hlen cg hcg
  have hgcells' : ∀ v ∈ cg.cells, ∃ s g, v = .str s ∧ parseWKT s = some g := by
    intro v hv
    rcases hgcells v hv with ⟨s, x, y, hvs, hp⟩
    exact ⟨s, _, hvs, hp⟩
  have hfwd := convert_forward_ok t hnd hcg hcgname hcgdt hgcells'
  set fs := featuresOf (normalizeSteps t) (cg.cells.map wktGeomOf) with hfsdef
  have hfs_eq : fs = (List.range t.nrows).map fun i =>
      (⟨((normalizeSteps t).cols.filter fun x => x.name != "geometry").map fun x =>
          (x.name, valToJ (x.cells.getD i .nan)),
        (cg.cells.map wktGeomOf)[i]?⟩ : Feature) := by
    rw [hfsdef]
    unfold featuresOf
    rw [hn]
  have hgeom_i : ∀ i < t.nrows,
      (cg.cells.map wktGeomOf)[i]? = some (wktGeomOf (cg.cells.getD i .nan)) := by
    intro i hi
    rw [List.getElem?_map, ← List.get?_eq_getElem?,
      get?_eq_some_getD Val.nan (by rw [hcglen]; exact hi), Option.map_some']
  have hcell_i : ∀ i < t.nrows, ∃ s x y, cg.cells.getD i .nan = .str s ∧
      parseWKT s = some (.point x y) := by
    intro i hi
    exact hgcells _ (getD_mem_of_lt Val.nan (by rw [hcglen]; exact hi))
  have hpt : ∀ f ∈ fs, ∃ x y, f.geometry = some (.point x y) := by
    rw [hfs_eq]
    intro f hf
    rcases List.mem_map.mp hf with ⟨i, hi, rfl⟩
    have hi' := List.mem_range.mp hi
    rcases hcell_i i hi' with ⟨s, x, y, hvs, hp⟩
    refine ⟨x, y, ?_⟩
    show (cg.cells.map wktGeomOf)[i]? = some (.point x y)
    rw [hgeom_i i hi', hvs]
    show some ((parseWKT s).getD (.point 0 0)) = _
    rw [hp]
    rfl
  have hnefs : fs ≠ [] := by
    rw [hfs_eq]
    intro h
    have hlen2 := congrArg List.length h
    simp at hlen2
    omega
  obtain ⟨C2, hconv, hKsub, hlatC, hlonC, hndC2, hchar⟩ := convert_geo_mapform fs hnefs hpt
  refine ⟨⟨C2, fs.map fun f => C2.map (geoCell f)⟩, ?_, ?_, ?_, ?_⟩
  · simp only [roundtrip, hfwd]
    exact hconv
  · intro c hc hcne
    have hcmem : c.name ∈ t.names := List.mem_map.mpr ⟨c, hc, rfl⟩
    have hclat : c.name ≠ "lat" := fun he => hlat0 (he ▸ hcmem)
    have hclon : c.name ≠ "lon" := fun he => hlon0 (he ▸ hcmem)
    have hstagemem : fillnaCol (excelCol (kantonCol (numCol c))) ∈ (normalizeSteps t).cols := by
      rw [normalizeSteps_cols]
      exact List.mem_map.mpr ⟨c, hc, rfl⟩
    have hstgname : (fillnaCol (excelCol (kantonCol (numCol c)))).name ≠ "geometry" := by
      rw [stageCol_name]
      exact hcne
    have hcK : c.name ∈ dfColumns (fs.map featRecordOk) := by
      rw [mem_dfColumns]
      obtain ⟨f, hf⟩ := List.exists_mem_of_ne_nil fs hnefs
      refine ⟨featRecordOk f, List.mem_map.mpr ⟨f, hf, rfl⟩, ?_⟩
      rw [hfs_eq] at hf
      rcases List.mem_map.mp hf with ⟨i, hi, rfl⟩
      have hkeys := featRecordOk_keys hstagemem hstgname ((cg.cells.map wktGeomOf)[i]?) i
      rw [stageCol_name] at hkeys
      exact hkeys
    have hcC2 : c.name ∈ C2 := hKsub _ hcK
    rw [frameCol_mapform C2 fs geoCell hcC2 _ rfl]
    rw [hfs_eq, List.map_map]
    rw [← getD_range_map Val.nan (hlen c hc)]
    apply List.map_congr_left
    intro i hi
    have hi' := List.mem_range.mp hi
    show geoCell ⟨((normalizeSteps t).cols.filter fun x => x.name != "geometry").map fun x =>
        (x.name, valToJ (x.cells.getD i .nan)), (cg.cells.map wktGeomOf)[i]?⟩ c.name
      = c.cells.getD i .nan
    have h0 := geoCell0_featuresOf hndst hstagemem hstgname ((cg.cells.map wktGeomOf)[i]?) i
    rw [stageCol_name] at h0
    by_cases hnumc : c.name ∈ numeric_columns
    · have hstage := stage_numeric c hnumc
        (fun v hv => (hnums c hc hnumc v hv).imp fun q hq => hq.1)
      simp only [hstage] at h0
      obtain ⟨q, hq, hdec⟩ := hnums c hc hnumc _
        (getD_mem_of_lt Val.nan (by rw [hlen c hc]; exact hi'))
      rw [hq] at h0 ⊢
      exact geoCell_of_geoCell0_num hnumc (show geoCell0 _ c.name = Val.num q from h0) hdec
    · by_cases hkanc : c.name = "Kanton"
      · have hstage := stage_kanton c hkanc
        simp only [hstage] at h0
        rw [getD_map_lt (fun v => kantonSplitCell (fillnaCell v)) Val.nan Val.nan
          (by rw [hlen c hc]; exact hi')] at h0
        obtain ⟨s, hq, hjoin⟩ := hkan c hc hkanc _
          (getD_mem_of_lt Val.nan (by rw [hlen c hc]; exact hi'))
        rw [hq] at h0 ⊢
        have hfill : fillnaCell (Val.str s) = Val.str s := rfl
        obtain ⟨l, hl⟩ := kantonSplitCell_vlist (Val.str s)
        rw [hfill, hl] at h0
        rw [hkanc] at h0 ⊢
        have hg := geoCell_of_geoCell0_kanton
          (show geoCell0 _ "Kanton" = Val.vlist l from h0)
        rw [hg, ← hl]
        exact hjoin
      · have hothc := hoth c hc hnumc hkanc hcne
        have hstage := stage_other c hnumc hkanc hothc.1 hothc.2
        simp only [hstage] at h0
        rw [geoCell_of_geoCell0_other hnumc hkanc hclat hclon, h0]
        rcases hothc.1 _ (getD_mem_of_lt Val.nan (by rw [hlen c hc]; exact hi'))
          with ⟨s, hq⟩ | ⟨q, hq⟩
        · rw [hq]
          rfl
        · rw [hq]
          rfl
  · rw [frameCol_mapform C2 fs geoCell hlatC _ rfl]
    rw [hfs_eq, List.map_map]
    rw [map_eq_range_map Val.nan (fun v => Val.num (wktY v)) hcglen]
    apply List.map_congr_left
    intro i hi
    have hi' := List.mem_range.mp hi
    show geoCell ⟨((normalizeSteps t).cols.filter fun x => x.name != "geometry").map fun x =>
        (x.name, valToJ (x.cells.getD i .nan)), (cg.cells.map wktGeomOf)[i]?⟩ "lat"
      = Val.num (wktY (cg.cells.getD i .nan))
    rw [geoCell_lat]
    rcases hcell_i i hi' with ⟨s, x, y, hvs, hp⟩
    rw [hvs]
    have hgeo : (cg.cells.map wktGeomOf)[i]? = some (.point x y) := by
      rw [hgeom_i i hi', hvs]
      show some ((parseWKT s).getD (.point 0 0)) = _
      rw [hp]
      rfl
    simp only [featY, hgeo, wktY, hp]
  · rw [frameCol_mapform C2 fs geoCell hlonC _ rfl]
    rw [hfs_eq, List.map_map]
    rw [map_eq_range_map Val.nan (fun v => Val.num (wktX v)) hcglen]
    apply List.map_congr_left
    intro i hi
    have hi' := List.mem_range.mp hi
    show geoCell ⟨((normalizeSteps t).cols.filter fun x => x.name != "geometry").map fun x =>
        (x.name, valToJ (x.cells.getD i .nan)), (cg.cells.map wktGeomOf)[i]?⟩ "lon"
      = Val.num (wktX (cg.cells.getD i .nan))
    rw [geoCell_lon]
    rcases hcell_i i hi' with ⟨s, x, y, hvs, hp⟩
    rw [hvs]
    have hgeo : (cg.cells.map wktGeomOf)[i]? = some (.point x y) := by
      rw [hgeom_i i hi', hvs]
      show some ((parseWKT s).getD (.point 0 0)) = _
      rw [hp]
      rfl
    simp only [featX, hgeo, wktX, hp]

/-- C2 (counterexample to the unconditional reading): on a table that
already has a `lat` column, the round trip succeeds but the derived
latitude column overwrites the original `lat` values, so not every
property value is preserved. -/
theorem roundtrip_lat_overwrite_cex :
    colCells tLatClash "lat" = [.str "keep me".data] ∧
      roundtrip tLatClash
        = .ok ⟨["lat", "geometry", "lon"], [[.num 2, .geom (.point 1 2), .num 1]]⟩ ∧
      frameCol ⟨["lat", "geometry", "lon"], [[.num 2, .geom (.point 1 2), .num 1]]⟩ "lat"
        = [.num 2] ∧
      (Val.num 2 ≠ .str "keep me".data) := by
  refine ⟨by decide, by decide, by decide, by decide⟩

theorem roundtrip_preserves_properties_witness :
    ∃ fr, roundtrip tRound = .ok fr ∧
      frameCol fr "Name" = [.str "W1".data] ∧
      frameCol fr "GesamthoeheM" = [.num (Rat.divInt 241 2)] ∧
      frameCol fr "Kanton" = [.str "ZH, BE".data] ∧
      frameCol fr "lat" = [.num (Rat.divInt 237 5)] ∧
      frameCol fr "lon" = [.num (Rat.divInt 17 2)] := by
  obtain ⟨fr, hok, hprops, hlat, hlon⟩ := roundtrip_preserves_properties tRound
    ⟨"geometry", .obj, [.str "POINT (8.5 47.4)".data]⟩
    (by decide)
    (by decide)
    (by decide)
    (by decide)
    (by decide)
    (by decide)
    rfl
    rfl
    (by
      intro v hv
      simp only [List.mem_singleton] at hv
      subst hv
      exact ⟨"POINT (8.5 47.4)".data, Rat.divInt 17 2, Rat.divInt 237 5, rfl, by decide⟩)
    (by
      intro c hc hnum v hv
      rcases List.mem_cons.mp hc with rfl | h2
      · exact absurd hnum (by decide)
      · rcases List.mem_cons.mp h2 with rfl | h3
        · simp only [List.mem_singleton] at hv
          subst hv
          exact ⟨Rat.divInt 241 2, rfl, by decide⟩
        · rcases List.mem_cons.mp h3 with rfl | h4
          · exact absurd hnum (by decide)
          · rcases List.mem_cons.mp h4 with rfl | h5
            · exact absurd hnum (by decide)
            · exact absurd h5 (List.not_mem_nil _))
    (by
      intro c hc hk v hv
      rcases List.mem_cons.mp hc with rfl | h2
      · exact absurd hk (by decide)
      · rcases List.mem_cons.mp h2 with rfl | h3
        · exact absurd hk (by decide)
        · rcases List.mem_cons.mp h3 with rfl | h4
          · simp only [List.mem_singleton] at hv
            subst hv
            exact ⟨"ZH, BE".data, rfl, by decide⟩
          · rcases List.mem_cons.mp h4 with rfl | h5
            · exact absurd hk (by decide)
            · exact absurd h5 (List.not_mem_nil _))
    (by
      intro c hc hnum hk hg
      rcases List.mem_cons.mp hc with rfl | h2
      · constructor
        · intro v hv
          simp only [List.mem_singleton] at hv
          subst hv
          exact Or.inl ⟨"W1".data, rfl⟩
        · intro hd
          rcases hd with hd | hd <;> exact absurd hd (by decide)
      · rcases List.mem_cons.mp h2 with rfl | h3
        · exact absurd (show ("GesamthoeheM" : String) ∈ numeric_columns by decide) hnum
        · rcases List.mem_cons.mp h3 with rfl | h4
          · exact absurd rfl hk
          · rcases List.mem_cons.mp h4 with rfl | h5
            · exact absurd rfl hg
            · exact absurd h5 (List.not_mem_nil _))
  refine ⟨fr, hok, ?_, ?_, ?_, ?_, ?_⟩
  · exact hprops ⟨"Name", .obj, [.str "W1".data]⟩ (by decide) (by decide)
  · exact hprops ⟨"GesamthoeheM", .float64, [.num (Rat.divInt 241 2)]⟩ (by decide) (by decide)
  · exact hprops ⟨"Kanton", .obj, [.str "ZH, BE".data]⟩ (by decide) (by decide)
  · rw [hlat]
    decide
  · rw [hlon]
    decide
